import Mathlib

/-!
# CFS-style scheduler of xv6-public-pa2 (`proc.c`)

A shallow embedding of the scheduling part of `proc.c`: the weight table, the
process table, the scan and dispatch of `scheduler`, `wakeup1`/`wakeup`,
`getnice` and `setnice`, process creation (`allocproc`, `userinit`, `fork`),
`kill`, `yield`, `sleep` and the listing `ps`, followed by theorems about them.

Conventions of the embedding.

* The process table `ptable.proc` is a `List proc`; a `struct proc *` is the
  index of a slot.
* `uint` values are natural numbers; every `uint` operation that can leave the
  range is reduced modulo `2 ^ 32` where the C code wraps.
* `int` values (`pid`, `nice`, return codes) are integers; the increment of
  `nextpid` wraps as 32-bit two's complement.
* `chan` is an address, used only for equality: a natural number.
* The outcome of an allocation made outside `proc.c` (`kalloc`, `copyuvm`,
  `setupkvm`) is an argument of the operation that makes it.
* An operation returns `none` where the C code does not return (null pointer
  dereferenced, `panic`).
* Console output is the list of the characters printed.
-/

namespace Xv6

/-! ## Data model -/

/-- The `enum procstate` of xv6. -/
inductive procstate where
  | UNUSED
  | EMBRYO
  | SLEEPING
  | RUNNABLE
  | RUNNING
  | ZOMBIE
  deriving DecidableEq, Repr

/-- The fields of `struct proc` that `proc.c` uses for scheduling and for the
listing of `ps`; `name` is the string held by `char name[16]`. -/
structure proc where
  pid : Int
  state : procstate
  nice : Int
  runtime : Nat
  vruntime : Nat
  timeslice : Nat
  chan : Nat
  killed : Int
  name : List Char := []
  deriving DecidableEq, Repr

/-- Modelled from the spec: `param.h` is not part of the sources; xv6 fixes the
number of slots of the process table to 64. -/
def NPROC : Nat := 64

/-- The constant `__UINT32_MAX__`. -/
def UINT32_MAX : Nat := 4294967295

/-- The array `uint weight[40]`. -/
def weight : List Nat :=
  [ 88761, 71755, 56483, 46273, 36291,
    29154, 23254, 18705, 14949, 11916,
    9548, 7620, 6100, 4904, 3906,
    3121, 2501, 1991, 1586, 1277,
    1024, 820, 655, 526, 423,
    335, 272, 215, 172, 137,
    110, 87, 70, 56, 45,
    36, 29, 23, 18, 15 ]

/-- The expression `weight[nice]`.  An index outside `0..39` is an out-of-bounds
read in C, which has no defined value; the model yields `0` there (and a
division by it yields `0`).  Bounds on the value read are stated only for an
index in range. -/
def weight_at (nice : Int) : Nat :=
  if 0 ≤ nice ∧ nice < 40 then weight.getD nice.toNat 0 else 0

/-- Every `uint` field of a slot holds a 32-bit value. -/
def proc.wellTyped (p : proc) : Prop :=
  p.runtime < 2 ^ 32 ∧ p.vruntime < 2 ^ 32 ∧ p.timeslice < 2 ^ 32

instance (p : proc) : Decidable p.wellTyped := by
  unfold proc.wellTyped; infer_instance

/-- Every slot of the table has a nice value in `0..39`. -/
def niceInRange (t : List proc) : Prop :=
  ∀ p ∈ t, 0 ≤ p.nice ∧ p.nice ≤ 39

instance (t : List proc) : Decidable (niceInRange t) := by
  unfold niceInRange; infer_instance

/-- Every slot of the table holds 32-bit values in its `uint` fields. -/
def tableWellTyped (t : List proc) : Prop :=
  ∀ p ∈ t, p.wellTyped

instance (t : List proc) : Decidable (tableWellTyped t) := by
  unfold tableWellTyped; infer_instance

/-! ## The picker: `scheduler` -/

/-- The locals of one iteration of the loop of `scheduler`. -/
structure Scan where
  min_vruntime : Nat
  min_vrun_p : Option Nat
  runnable_exists : Int
  total_weight : Nat
  deriving DecidableEq, Repr

/-- The initial values of the locals (`proc.c` lines 359-362). -/
def scanInit : Scan :=
  { min_vruntime := UINT32_MAX, min_vrun_p := none, runnable_exists := 0, total_weight := 0 }

/-- The body of the scanning loop for the slot `p` at index `i`
(`proc.c` lines 367-376). -/
def scanStep (i : Nat) (p : proc) (s : Scan) : Scan :=
  if p.state ≠ procstate.RUNNABLE then s
  else
    let s1 : Scan :=
      if p.vruntime < s.min_vruntime then
        { s with min_vruntime := p.vruntime, min_vrun_p := some i }
      else s
    { s1 with runnable_exists := 1
              total_weight := (s1.total_weight + weight_at p.nice) % 2 ^ 32 }

/-- The scanning loop over the slots from index `i` on. -/
def scanFrom (i : Nat) (s : Scan) : List proc → Scan
  | [] => s
  | p :: ps => scanFrom (i + 1) (scanStep i p s) ps

/-- The scanning loop of `scheduler` over the whole table
(`proc.c` lines 359-377). -/
def scan (t : List proc) : Scan :=
  scanFrom 0 scanInit t

/-- The quantum computed at `proc.c` line 382:
`1000 * 10 * weight[nice] / total_weight` in `uint` arithmetic. -/
def timesliceOf (nice : Int) (total_weight : Nat) : Nat :=
  (1000 * 10 * weight_at nice) % 2 ^ 32 / total_weight

/-- One iteration of the loop of `scheduler`, up to the context switch
(`proc.c` lines 359-387).  The result is `none` where the C code has no defined
result: `min_vrun_p` is null when it is dereferenced, or `total_weight` is `0`
in the division. -/
def schedulerStep (t : List proc) : Option (List proc) :=
  let s := scan t
  if s.runnable_exists = 1 then
    match s.min_vrun_p with
    | none => none
    | some i =>
      match t[i]? with
      | none => none
      | some p =>
        if s.total_weight = 0 then none
        else
          some (t.set i { p with timeslice := timesliceOf p.nice s.total_weight
                                 state := procstate.RUNNING })
  else some t

/-! ## The wake policy: `wakeup1` -/

/-- The first loop of `wakeup1` (`proc.c` lines 532-538): the flag
`runnable_exists` after the loop, which stops at the first RUNNABLE slot. -/
def wakeupRunnableExists : List proc → Int
  | [] => 0
  | p :: ps => if p.state = procstate.RUNNABLE then 1 else wakeupRunnableExists ps

/-- The loop of `wakeup1` that computes `min_vruntime` (`proc.c` lines 550-555),
started with the value `m` of the local. -/
def wakeupMinVruntime (m : Nat) : List proc → Nat
  | [] => m
  | p :: ps =>
    wakeupMinVruntime
      (if p.state = procstate.RUNNABLE ∧ p.vruntime < m then p.vruntime else m) ps

/-- Subtraction of `uint` values: wraps modulo `2 ^ 32`. -/
def usub32 (a b : Nat) : Nat :=
  (a + 2 ^ 32 - b % 2 ^ 32) % 2 ^ 32

/-- The expression `1000*weight[20]/weight[nice]` of `proc.c` line 560, in
`uint` arithmetic. -/
def wakeDelta (nice : Int) : Nat :=
  (1000 * weight_at 20) % 2 ^ 32 / weight_at nice

/-- The body of the loop of `wakeup1` taken when no process is RUNNABLE
(`proc.c` lines 543-546). -/
def wakeZero (chan : Nat) (p : proc) : proc :=
  if p.state = procstate.SLEEPING ∧ p.chan = chan then
    { p with vruntime := 0, state := procstate.RUNNABLE }
  else p

/-- The body of the last loop of `wakeup1` (`proc.c` lines 559-562). -/
def wakeBehind (min_vruntime chan : Nat) (p : proc) : proc :=
  if p.state = procstate.SLEEPING ∧ p.chan = chan then
    { p with vruntime := usub32 min_vruntime (wakeDelta p.nice)
             state := procstate.RUNNABLE }
  else p

/-- The function `wakeup1` (`proc.c` lines 526-565) on the table `t`. -/
def wakeup1 (t : List proc) (chan : Nat) : List proc :=
  if wakeupRunnableExists t = 0 then
    t.map (wakeZero chan)
  else
    t.map (wakeBehind (wakeupMinVruntime UINT32_MAX t) chan)

/-- The function `wakeup` (`proc.c` lines 568-574): `wakeup1` under the lock. -/
def wakeup (t : List proc) (chan : Nat) : List proc :=
  wakeup1 t chan

/-! ## Introspection: `getnice` and `setnice` -/

/-- The loop of `getnice` (`proc.c` lines 664-671). -/
def getniceLoop (pid : Int) : List proc → Int
  | [] => -1
  | p :: ps => if p.pid = pid then p.nice else getniceLoop pid ps

/-- The function `getnice` (`proc.c` lines 658-672): the value returned and the
table after the call. -/
def getnice (t : List proc) (pid : Int) : Int × List proc :=
  (getniceLoop pid t, t)

/-- The loop of `setnice` (`proc.c` lines 687-696): the value returned and the
slots after the loop. -/
def setniceLoop (pid value : Int) : List proc → Int × List proc
  | [] => (-1, [])
  | p :: ps =>
    if p.pid = pid then (0, { p with nice := value } :: ps)
    else ((setniceLoop pid value ps).1, p :: (setniceLoop pid value ps).2)

/-- The function `setnice` (`proc.c` lines 678-697): the value returned and the
table after the call. -/
def setnice (t : List proc) (pid value : Int) : Int × List proc :=
  if value < 0 ∨ value > 39 then (-1, t) else setniceLoop pid value t

/-! ## Helper notions for the statements -/

/-- The slot `p` is RUNNABLE. -/
def proc.runnable (p : proc) : Prop := p.state = procstate.RUNNABLE

instance (p : proc) : Decidable p.runnable := by
  unfold proc.runnable; infer_instance

/-- The slot `p` is SLEEPING on the channel `chan`. -/
def proc.sleepingOn (p : proc) (chan : Nat) : Prop :=
  p.state = procstate.SLEEPING ∧ p.chan = chan

instance (p : proc) (chan : Nat) : Decidable (p.sleepingOn chan) := by
  unfold proc.sleepingOn; infer_instance

/-- The total weight of the ready set: the sum of `weight[q.nice]` over the
RUNNABLE slots `q` of the table, as a natural number (no wrap-around). -/
def totalWeight (t : List proc) : Nat :=
  ((t.filter (fun q => q.state = procstate.RUNNABLE)).map (fun q => weight_at q.nice)).sum

/-- An UNUSED slot of the zero-initialised table. -/
def unusedSlot : proc :=
  { pid := 0, state := procstate.UNUSED, nice := 0, runtime := 0, vruntime := 0,
    timeslice := 0, chan := 0, killed := 0 }

/-- A slot with the given pid, state, nice and vruntime (other fields zero). -/
def mkSlot (pid : Int) (st : procstate) (nice : Int) (vruntime : Nat) : proc :=
  { pid := pid, state := st, nice := nice, runtime := 0, vruntime := vruntime,
    timeslice := 0, chan := 0, killed := 0 }

/-- A sample table of `NPROC` slots: three RUNNABLE processes, where the second
and the third both have the least `vruntime`. -/
def sampleTies : List proc :=
  [mkSlot 1 procstate.RUNNABLE 20 700, mkSlot 2 procstate.RUNNABLE 10 300,
   mkSlot 3 procstate.RUNNABLE 30 300] ++ List.replicate 61 unusedSlot

/-- A sample table of `NPROC` slots: a RUNNABLE process of nice 39 with the
least `vruntime`, next to two RUNNABLE processes of nice 0. -/
def sampleTiny : List proc :=
  [mkSlot 1 procstate.RUNNABLE 39 0, mkSlot 2 procstate.RUNNABLE 0 5,
   mkSlot 3 procstate.RUNNABLE 0 5] ++ List.replicate 61 unusedSlot

/-- The value `M` is the minimum `vruntime` over the RUNNABLE slots of `t`. -/
def isMinVruntime (t : List proc) (M : Nat) : Prop :=
  (∃ q ∈ t, q.runnable ∧ q.vruntime = M) ∧ ∀ q ∈ t, q.runnable → M ≤ q.vruntime

/-- A slot SLEEPING on `chan` with the given pid, nice and vruntime. -/
def mkSleeper (pid : Int) (nice : Int) (vruntime chan : Nat) : proc :=
  { pid := pid, state := procstate.SLEEPING, nice := nice, runtime := 0,
    vruntime := vruntime, timeslice := 0, chan := chan, killed := 0 }

/-- A sample table of `NPROC` slots: two RUNNABLE processes with least
`vruntime` 5000, two processes SLEEPING on channel 7 and one on channel 9. -/
def sampleWake : List proc :=
  [mkSlot 1 procstate.RUNNABLE 20 5000, mkSleeper 2 20 123 7, mkSleeper 3 0 77 7,
   mkSleeper 4 20 55 9, mkSlot 5 procstate.RUNNABLE 25 6000] ++ List.replicate 59 unusedSlot

/-- A sample table of `NPROC` slots without a RUNNABLE process: two processes
SLEEPING on channel 7, one on channel 9 and a RUNNING one. -/
def sampleIdle : List proc :=
  [mkSleeper 1 20 4000 7, mkSlot 2 procstate.RUNNING 20 900, mkSleeper 3 5 77 7,
   mkSleeper 4 20 55 9] ++ List.replicate 60 unusedSlot

/-- A sample table of `NPROC` slots: one RUNNABLE process of nice 20 with
`vruntime` 500 and one process of nice 20 SLEEPING on channel 7. -/
def sampleWrap : List proc :=
  [mkSlot 1 procstate.RUNNABLE 20 500, mkSleeper 2 20 0 7] ++ List.replicate 62 unusedSlot

/-- A sample table of `NPROC` slots in which two slots carry the pid 4. -/
def samplePids : List proc :=
  [mkSlot 3 procstate.RUNNABLE 20 0, mkSlot 4 procstate.RUNNING 7 10,
   mkSleeper 4 31 0 2, mkSlot 5 procstate.ZOMBIE 20 0] ++ List.replicate 60 unusedSlot

/-! ## Process creation: `allocproc`, `userinit`, `fork` -/

/-- The process table together with the global `nextpid`. -/
structure Kernel where
  ptable : List proc
  nextpid : Int
  deriving DecidableEq, Repr

/-- The value of the `int` expression whose mathematical value is `x`, as the
compiled code computes it: 32-bit two's complement, so that `2147483647 + 1` is
`-2147483648`. -/
def wrapInt32 (x : Int) : Int :=
  (x + 2 ^ 31) % 2 ^ 32 - 2 ^ 31

/-- The kernel state at boot: `ptable` is zero-initialised (every slot UNUSED
with all fields zero) and `nextpid` is 1. -/
def bootKernel : Kernel :=
  { ptable := List.replicate NPROC unusedSlot, nextpid := 1 }

/-- The search loop of `allocproc` (`proc.c` lines 91-93): the index of the
first UNUSED slot. -/
def findUnused : List proc → Option Nat
  | [] => none
  | p :: ps => if p.state = procstate.UNUSED then some 0 else (findUnused ps).map (· + 1)

/-- The writes of `allocproc` after `found:` (`proc.c` lines 99-105). -/
def allocInit (nextpid : Int) (p : proc) : proc :=
  { p with state := procstate.EMBRYO, pid := nextpid, nice := 20, runtime := 0, vruntime := 0 }

/-- The function `allocproc` (`proc.c` lines 83-131): the slot returned (`none`
for the null pointer) and the state after the call.  The outcome of `kalloc`
is the argument `kalloc_ok`; when it fails the slot goes back to UNUSED
(`proc.c` lines 110-113).  `nextpid++` is an `int` increment. -/
def allocproc (k : Kernel) (kalloc_ok : Bool) : Option Nat × Kernel :=
  match findUnused k.ptable with
  | none => (none, k)
  | some i =>
    match k.ptable[i]? with
    | none => (none, k)
    | some p =>
      if kalloc_ok then
        (some i, { ptable := k.ptable.set i (allocInit k.nextpid p), nextpid := wrapInt32 (k.nextpid + 1) })
      else
        (none, { ptable :=
                   k.ptable.set i ({ allocInit k.nextpid p with state := procstate.UNUSED }),
                 nextpid := wrapInt32 (k.nextpid + 1) })

/-- The function `userinit` (`proc.c` lines 135-176).  The result is `none`
where the C code does not return: `allocproc` yields the null pointer, which is
dereferenced, or `setupkvm` fails and the kernel panics. -/
def userinit (k : Kernel) (kalloc_ok setupkvm_ok : Bool) : Option Kernel :=
  match allocproc k kalloc_ok with
  | (none, _) => none
  | (some i, k1) =>
    if setupkvm_ok then
      match k1.ptable[i]? with
      | none => none
      | some p =>
        some { k1 with ptable :=
                 k1.ptable.set i ({ p with name := String.toList "initcode",
                                           state := procstate.RUNNABLE,
                                           nice := 20, runtime := 0, vruntime := 0 }) }
    else none

/-- The function `fork` (`proc.c` lines 202-248) called by the process in slot
`cur`: the value returned and the state after the call.  The outcomes of
`kalloc` and `copyuvm` are arguments.  The result is `none` when `cur` is not a
slot (`myproc()` is null and is dereferenced). -/
def fork (k : Kernel) (cur : Nat) (kalloc_ok copyuvm_ok : Bool) : Option (Int × Kernel) :=
  match allocproc k kalloc_ok with
  | (none, k1) => some (-1, k1)
  | (some i, k1) =>
    match k1.ptable[i]?, k1.ptable[cur]? with
    | some np, some curproc =>
      if copyuvm_ok then
        some (np.pid,
          { k1 with ptable :=
              k1.ptable.set i ({ np with name := curproc.name, nice := curproc.nice,
                                         runtime := curproc.runtime,
                                         vruntime := curproc.vruntime,
                                         state := procstate.RUNNABLE }) })
      else
        some (-1,
          { k1 with ptable := k1.ptable.set i ({ np with state := procstate.UNUSED }) })
    | _, _ => none

/-! ## `kill`, `yield`, `sleep` -/

/-- The writes of `kill` to the slot it finds (`proc.c` lines 587-590). -/
def killSlot (p : proc) : proc :=
  { p with killed := 1
           state := if p.state = procstate.SLEEPING then procstate.RUNNABLE else p.state }

/-- The loop of `kill` (`proc.c` lines 585-596): the value returned and the
slots after the loop. -/
def killLoop (pid : Int) : List proc → Int × List proc
  | [] => (-1, [])
  | p :: ps =>
    if p.pid = pid then (0, killSlot p :: ps)
    else ((killLoop pid ps).1, p :: (killLoop pid ps).2)

/-- The function `kill` (`proc.c` lines 579-597): the value returned and the
table after the call. -/
def kill (t : List proc) (pid : Int) : Int × List proc :=
  killLoop pid t

/-- The function `yield` (`proc.c` lines 448-461) called by the process in slot
`cur`, up to the switch to the scheduler in `sched`: the state of the slot
becomes RUNNABLE; the accounting statements are comments.  The result is `none`
when `cur` is not a slot. -/
def yield (t : List proc) (cur : Nat) : Option (List proc) :=
  match t[cur]? with
  | none => none
  | some p => some (t.set cur { p with state := procstate.RUNNABLE })

/-- The function `sleep` (`proc.c` lines 486-521) called by the process in slot
`cur`, up to the switch to the scheduler in `sched`.  The result is `none`
where the kernel panics: `myproc()` is null (`cur` is not a slot) or `lk` is
null. -/
def sleep (t : List proc) (cur : Nat) (chan lk : Nat) : Option (List proc) :=
  match t[cur]? with
  | none => none
  | some p =>
    if lk = 0 then none
    else some (t.set cur { p with chan := chan, state := procstate.SLEEPING })

/-- The rest of `sleep` once the process in slot `cur` runs again
(`proc.c` line 514): `chan` is cleared. -/
def sleepTidy (t : List proc) (cur : Nat) : Option (List proc) :=
  match t[cur]? with
  | none => none
  | some p => some (t.set cur { p with chan := 0 })

/-! ## Reachable states -/

/-- The kernel states reached from boot by the operations of `proc.c` on the
process table: `allocproc`, `userinit`, `fork`, `setnice`, `wakeup`, `kill`,
`yield`, `sleep` and the dispatch step of `scheduler`, with every argument and
every outcome of the allocations. -/
inductive Reachable : Kernel → Prop where
  | boot : Reachable bootKernel
  | allocproc (k : Kernel) (kalloc_ok : Bool) :
      Reachable k → Reachable (allocproc k kalloc_ok).2
  | userinit (k k' : Kernel) (kalloc_ok setupkvm_ok : Bool) :
      Reachable k → userinit k kalloc_ok setupkvm_ok = some k' → Reachable k'
  | fork (k k' : Kernel) (cur : Nat) (kalloc_ok copyuvm_ok : Bool) (r : Int) :
      Reachable k → fork k cur kalloc_ok copyuvm_ok = some (r, k') → Reachable k'
  | setnice (k : Kernel) (pid value : Int) :
      Reachable k → Reachable { k with ptable := (setnice k.ptable pid value).2 }
  | wakeup (k : Kernel) (chan : Nat) :
      Reachable k → Reachable { k with ptable := wakeup k.ptable chan }
  | kill (k : Kernel) (pid : Int) :
      Reachable k → Reachable { k with ptable := (kill k.ptable pid).2 }
  | yield (k : Kernel) (cur : Nat) (t' : List proc) :
      Reachable k → yield k.ptable cur = some t' → Reachable { k with ptable := t' }
  | sleep (k : Kernel) (cur chan lk : Nat) (t' : List proc) :
      Reachable k → sleep k.ptable cur chan lk = some t' → Reachable { k with ptable := t' }
  | sleepTidy (k : Kernel) (cur : Nat) (t' : List proc) :
      Reachable k → sleepTidy k.ptable cur = some t' → Reachable { k with ptable := t' }
  | dispatch (k : Kernel) (t' : List proc) :
      Reachable k → schedulerStep k.ptable = some t' → Reachable { k with ptable := t' }

/-- A sample kernel state: the table `samplePids`, whose first UNUSED slot is
slot 4, with `nextpid = 6`. -/
def sampleKernel : Kernel :=
  { ptable := samplePids, nextpid := 6 }

/-- A sample kernel state: a RUNNING parent of nice 7 in slot 1 (runtime 321,
vruntime 4500), and the first UNUSED slot is slot 2. -/
def sampleForkKernel : Kernel :=
  { ptable :=
      [mkSlot 1 procstate.SLEEPING 20 10,
       { mkSlot 2 procstate.RUNNING 7 4500 with runtime := 321,
                                                name := String.toList "sh" }] ++
      List.replicate 62 unusedSlot,
    nextpid := 3 }

/-- A sample table of `NPROC` slots: two RUNNABLE processes, both with the
`vruntime` `UINT32_MAX`. -/
def sampleMaxTwo : List proc :=
  [mkSlot 1 procstate.RUNNABLE 20 4294967295, mkSlot 2 procstate.SLEEPING 20 0,
   mkSlot 3 procstate.RUNNABLE 25 4294967295] ++ List.replicate 61 unusedSlot

/-- A sample table of `NPROC` slots: exactly one RUNNABLE process, of nice 20
and with the `vruntime` `UINT32_MAX`. -/
def sampleMaxOne : List proc :=
  [mkSlot 1 procstate.SLEEPING 20 0, mkSlot 2 procstate.RUNNABLE 20 4294967295] ++
    List.replicate 62 unusedSlot

/-! ## The listing: `ps` -/

/-- The decimal digit `d` as a character. -/
def digitChar (d : Nat) : Char := Char.ofNat (48 + d)

/-- The decimal digits of `n`, most significant first, computed with at most
`fuel` digits. -/
def decimalFuel : Nat → Nat → List Char
  | 0, _ => []
  | fuel + 1, n =>
    if n < 10 then [digitChar n] else decimalFuel fuel (n / 10) ++ [digitChar (n % 10)]

/-- The decimal representation of the natural number `n` (`0` is the single
digit 0); `n + 1` digits always suffice. -/
def decimal (n : Nat) : List Char := decimalFuel (n + 1) n

/-- Modelled from the spec: `cprintf` (console.c) is not part of the sources.
The conversion `%u` prints its `uint` argument in decimal. -/
def fmt_u (x : Nat) : List Char := decimal x

/-- Modelled from the spec: `cprintf` (console.c) is not part of the sources.
The conversion `%d` prints its `int` argument in decimal, with a minus sign
when it is negative. -/
def fmt_d (x : Int) : List Char :=
  if x < 0 then Char.ofNat 45 :: decimal (-x).toNat else decimal x.toNat

/-- A `uint` value read as the `int` with the same 32 bits, as happens to a
`uint` argument of the conversion `%d`. -/
def toInt32 (n : Nat) : Int :=
  if n % 2 ^ 32 < 2 ^ 31 then ((n % 2 ^ 32 : Nat) : Int) else ((n % 2 ^ 32 : Nat) : Int) - 2 ^ 32

/-- Modelled from the spec: `strlen` (string.c) is not part of the sources; it
is the number of characters of the string. -/
def strlen (s : List Char) : Int := (s.length : Int)

/-- The loop of `digit_len` (`proc.c` lines 704-707), run for at most `fuel`
iterations. -/
def digit_lenLoop : Nat → Nat → Int → Int
  | 0, _, len => len
  | fuel + 1, num, len =>
    if num ≥ 10 then digit_lenLoop fuel (num / 10) (len + 1) else len

/-- The function `digit_len` (`proc.c` lines 701-709); `num` iterations always
suffice, since every iteration divides `num` by 10. -/
def digit_len (num : Nat) : Int := digit_lenLoop num num 1

/-- The loop of `ps` that counts the digits of the pid (`proc.c` lines 739-742
and 781-784), run for at most `fuel` iterations. -/
def pid_lengthLoop : Nat → Int → Int → Int
  | 0, _, pid_length => pid_length
  | fuel + 1, temp_pid, pid_length =>
    if temp_pid ≥ 10 then pid_lengthLoop fuel (temp_pid / 10) (pid_length + 1)
    else pid_length

/-- The local `pid_length` of `ps` after its loop. -/
def pid_length (pid : Int) : Int := pid_lengthLoop pid.toNat pid 1

/-- The array `procstate_str` of `ps` (`proc.c` line 723), indexed by the
state. -/
def procstate_str : procstate → List Char
  | procstate.UNUSED => String.toList "UNUSED"
  | procstate.EMBRYO => String.toList "EMBRYO"
  | procstate.SLEEPING => String.toList "SLEEPING"
  | procstate.RUNNABLE => String.toList "RUNNABLE"
  | procstate.RUNNING => String.toList "RUNNING"
  | procstate.ZOMBIE => String.toList "ZOMBIE"

/-- The output of `for(int i = 0; i < bound; i++) cprintf(" ");`. -/
def spaces (bound : Int) : List Char := List.replicate bound.toNat (Char.ofNat 32)

/-- The text of the first `cprintf` of the header (`proc.c` lines 729 and
768). -/
def psTitles : List Char :=
  String.toList
    "name            pid        state         priority     runtime/weight   runtime      vruntime      tick "

/-- The header printed by `ps` (`proc.c` lines 729-730 and 768-769): the titles,
then `cprintf("%d000\n", total_ticks)`. -/
def psHeader (total_ticks : Nat) : List Char :=
  psTitles ++ (fmt_d (toInt32 total_ticks) ++ String.toList "000\n")

/-- The row printed by `ps` for the slot `p` (`proc.c` lines 732-763 and
774-805). -/
def psRow (p : proc) : List Char :=
  (p.name ++ spaces (16 - strlen p.name)) ++
  (fmt_d p.pid ++ spaces (11 - pid_length p.pid)) ++
  (procstate_str p.state ++ spaces (14 - strlen (procstate_str p.state))) ++
  (fmt_d p.nice ++ spaces (if p.nice > 9 then 11 else 12)) ++
  (fmt_u (p.runtime / weight_at p.nice) ++
    spaces (17 - digit_len (p.runtime / weight_at p.nice))) ++
  (fmt_u p.runtime ++ spaces (13 - digit_len p.runtime)) ++
  (fmt_u p.vruntime ++ [Char.ofNat 10])

/-- The loop of `ps` for `pid > 0` (`proc.c` lines 727-766): every slot with the
pid prints the header and its row. -/
def psMatching (total_ticks : Nat) (pid : Int) : List proc → List Char
  | [] => []
  | p :: ps =>
    (if p.pid = pid then psHeader total_ticks ++ psRow p else []) ++
      psMatching total_ticks pid ps

/-- The loop of `ps` for the other values of `pid` (`proc.c` lines 771-807):
every slot that is not UNUSED prints its row. -/
def psAll : List proc → List Char
  | [] => []
  | p :: ps => (if p.state ≠ procstate.UNUSED then psRow p else []) ++ psAll ps

/-- The function `ps` (`proc.c` lines 717-812): the text printed on the console
and the table after the call. -/
def ps (t : List proc) (total_ticks : Nat) (pid : Int) : List Char × List proc :=
  if pid > 0 then (psMatching total_ticks pid t, t)
  else (psHeader total_ticks ++ psAll t, t)

/-- The text `s` followed by spaces up to the width `w`. -/
def padRight (w : Nat) (s : List Char) : List Char :=
  s ++ List.replicate (w - s.length) (Char.ofNat 32)

/-- A sample slot for a row of `ps`: the process `sh` with pid 12, nice 7,
runtime 321000 and vruntime 4500. -/
def sampleRowProc : proc :=
  { mkSlot 12 procstate.RUNNABLE 7 4500 with runtime := 321000, name := String.toList "sh" }

/-- A sample table of `NPROC` slots: one RUNNABLE process of nice 20 with
`vruntime` 999 and one process of nice 20 SLEEPING on channel 7. -/
def sampleNearZero : List proc :=
  [mkSlot 1 procstate.RUNNABLE 20 999, mkSleeper 2 20 0 7] ++ List.replicate 62 unusedSlot

/-- The table reached from `sampleNearZero` by `wakeup(7)`, a dispatch step and
the `sleep` of the dispatched process on channel 9: the process woken at
`999 - 1000` modulo `2^32`, that is `UINT32_MAX`, is the only RUNNABLE one. -/
def sampleStranded : List proc :=
  [{ mkSlot 1 procstate.SLEEPING 20 999 with timeslice := 5000, chan := 9 },
   { mkSleeper 2 20 4294967295 7 with state := procstate.RUNNABLE }] ++
    List.replicate 62 unusedSlot

/-- A sample kernel state: the table `samplePids`, whose first UNUSED slot is
slot 4, with `nextpid = 2147483647`, the largest `int`. -/
def sampleLastPid : Kernel :=
  { ptable := samplePids, nextpid := 2147483647 }

/-! ## Lemmas on the scan of `scheduler` -/

theorem scanStep_of_not_runnable (i : Nat) (p : proc) (s : Scan)
    (h : p.state ≠ procstate.RUNNABLE) : scanStep i p s = s := by
  simp [scanStep, h]

theorem scanStep_min_vrun_p_lt (i : Nat) (p : proc) (s : Scan)
    (h : p.state = procstate.RUNNABLE) (hlt : p.vruntime < s.min_vruntime) :
    (scanStep i p s).min_vrun_p = some i ∧ (scanStep i p s).min_vruntime = p.vruntime := by
  simp [scanStep, h, hlt]

theorem scanStep_min_vrun_p_ge (i : Nat) (p : proc) (s : Scan)
    (hge : ¬ p.vruntime < s.min_vruntime) :
    (scanStep i p s).min_vrun_p = s.min_vrun_p ∧
      (scanStep i p s).min_vruntime = s.min_vruntime := by
  unfold scanStep
  split
  · exact ⟨rfl, rfl⟩
  · simp [hge]

/-- What the scanning loop does to `min_vruntime` and `min_vrun_p`: either both
are as before and no RUNNABLE slot scanned is below the old minimum, or the
pointer is the first scanned RUNNABLE slot that attains the least `vruntime`
among the scanned RUNNABLE slots, which is below the old minimum. -/
theorem scanFrom_spec (ps : List proc) : ∀ (i : Nat) (s : Scan),
    ((scanFrom i s ps).min_vrun_p = s.min_vrun_p ∧
      (scanFrom i s ps).min_vruntime = s.min_vruntime ∧
      ∀ q ∈ ps, q.state = procstate.RUNNABLE → s.min_vruntime ≤ q.vruntime) ∨
    (∃ k p, ps[k]? = some p ∧ (scanFrom i s ps).min_vrun_p = some (i + k) ∧
      p.state = procstate.RUNNABLE ∧ (scanFrom i s ps).min_vruntime = p.vruntime ∧
      p.vruntime < s.min_vruntime ∧
      ∀ j q, ps[j]? = some q → q.state = procstate.RUNNABLE →
        p.vruntime ≤ q.vruntime ∧ (j < k → p.vruntime < q.vruntime)) := by
  induction ps with
  | nil => intro i s; left; simp [scanFrom]
  | cons a ps ih =>
    intro i s
    simp only [scanFrom]
    by_cases hlt : a.state = procstate.RUNNABLE ∧ a.vruntime < s.min_vruntime
    · obtain ⟨hr, hlt⟩ := hlt
      obtain ⟨hp, hm⟩ := scanStep_min_vrun_p_lt i a s hr hlt
      right
      rcases ih (i + 1) (scanStep i a s) with ⟨h1, h2, h3⟩ | ⟨k, p, hk, h1, h2, h3, h4, h5⟩
      · refine ⟨0, a, by simp, by simp [h1, hp], hr, by rw [h2, hm], hlt, ?_⟩
        intro j q hj hq
        cases j with
        | zero => simp at hj; subst hj; simp
        | succ j =>
          simp at hj
          have := h3 q (List.getElem?_mem hj) hq
          rw [hm] at this
          exact ⟨this, fun h => absurd h (by omega)⟩
      · refine ⟨k + 1, p, by simpa using hk, by rw [h1]; congr 1; omega, h2, h3, by omega, ?_⟩
        intro j q hj hq
        cases j with
        | zero =>
          simp at hj; subst hj
          rw [hm] at h4
          exact ⟨by omega, fun _ => h4⟩
        | succ j =>
          simp at hj
          have := h5 j q hj hq
          exact ⟨this.1, fun h => this.2 (by omega)⟩
    · have hstep : (scanStep i a s).min_vrun_p = s.min_vrun_p ∧
          (scanStep i a s).min_vruntime = s.min_vruntime := by
        by_cases hr : a.state = procstate.RUNNABLE
        · exact scanStep_min_vrun_p_ge i a s (fun h => hlt ⟨hr, h⟩)
        · rw [scanStep_of_not_runnable i a s hr]; exact ⟨rfl, rfl⟩
      obtain ⟨hp, hm⟩ := hstep
      have ha : a.state = procstate.RUNNABLE → s.min_vruntime ≤ a.vruntime := by
        intro hr
        by_contra hc
        exact hlt ⟨hr, by omega⟩
      rcases ih (i + 1) (scanStep i a s) with ⟨h1, h2, h3⟩ | ⟨k, p, hk, h1, h2, h3, h4, h5⟩
      · left
        refine ⟨by rw [h1, hp], by rw [h2, hm], ?_⟩
        intro q hq hqr
        rcases List.mem_cons.mp hq with rfl | hq
        · exact ha hqr
        · have := h3 q hq hqr
          rwa [hm] at this
      · right
        rw [hm] at h4
        refine ⟨k + 1, p, by simpa using hk, by rw [h1]; congr 1; omega, h2, h3, h4, ?_⟩
        intro j q hj hq
        cases j with
        | zero =>
          simp at hj; subst hj
          have := ha hq
          exact ⟨by omega, fun _ => by omega⟩
        | succ j =>
          simp at hj
          have := h5 j q hj hq
          exact ⟨this.1, fun h => this.2 (by omega)⟩

theorem scanFrom_runnable_exists (ps : List proc) : ∀ (i : Nat) (s : Scan),
    (∃ q ∈ ps, q.state = procstate.RUNNABLE) → (scanFrom i s ps).runnable_exists = 1 := by
  induction ps with
  | nil => intro i s h; simp at h
  | cons a ps ih =>
    intro i s h
    simp only [scanFrom]
    by_cases hex : ∃ q ∈ ps, q.state = procstate.RUNNABLE
    · exact ih _ _ hex
    · have ha : a.state = procstate.RUNNABLE := by
        obtain ⟨q, hq, hqr⟩ := h
        rcases List.mem_cons.mp hq with rfl | hq
        · exact hqr
        · exact absurd ⟨q, hq, hqr⟩ hex
      have hnone : ∀ (j : Nat) (s0 : Scan), scanFrom j s0 ps = s0 := by
        have hall : ∀ q ∈ ps, q.state ≠ procstate.RUNNABLE := fun q hq hqr => hex ⟨q, hq, hqr⟩
        clear ih h hex
        induction ps with
        | nil => intro j s0; rfl
        | cons b ps ih2 =>
          intro j s0
          simp only [scanFrom]
          rw [scanStep_of_not_runnable j b s0 (hall b (List.mem_cons_self _ _))]
          exact ih2 (fun q hq => hall q (List.mem_cons_of_mem _ hq)) _ _
      rw [hnone]
      simp [scanStep, ha]

/-! ## Lemmas on the weights -/

theorem weight_at_bounds (n : Int) (h0 : 0 ≤ n) (h1 : n ≤ 39) :
    15 ≤ weight_at n ∧ weight_at n ≤ 88761 := by
  interval_cases n <;> decide

theorem weight_at_le (n : Int) : weight_at n ≤ 88761 := by
  by_cases h : 0 ≤ n ∧ n < 40
  · exact (weight_at_bounds n h.1 (by omega)).2
  · simp [weight_at, h]

theorem wakeDelta_bounds (n : Int) (h0 : 0 ≤ n) (h1 : n ≤ 39) :
    11 ≤ wakeDelta n ∧ wakeDelta n ≤ 68266 := by
  interval_cases n <;> decide

theorem totalWeight_cons (a : proc) (ps : List proc) :
    totalWeight (a :: ps) =
      (if a.state = procstate.RUNNABLE then weight_at a.nice else 0) + totalWeight ps := by
  unfold totalWeight
  by_cases h : a.state = procstate.RUNNABLE <;> simp [List.filter_cons, h]

theorem totalWeight_le (t : List proc) : totalWeight t ≤ t.length * 88761 := by
  induction t with
  | nil => simp [totalWeight]
  | cons a ps ih =>
    rw [totalWeight_cons, List.length_cons]
    have := weight_at_le a.nice
    split <;> omega

theorem totalWeight_ge_of_mem (t : List proc) (p : proc) (hp : p ∈ t)
    (hr : p.state = procstate.RUNNABLE) : weight_at p.nice ≤ totalWeight t := by
  induction t with
  | nil => simp at hp
  | cons a ps ih =>
    rw [totalWeight_cons]
    rcases List.mem_cons.mp hp with rfl | hp
    · simp [hr]
    · have := ih hp
      omega

theorem scanFrom_total_weight (ps : List proc) : ∀ (i : Nat) (s : Scan),
    s.total_weight < 2 ^ 32 →
    (scanFrom i s ps).total_weight = (s.total_weight + totalWeight ps) % 2 ^ 32 := by
  induction ps with
  | nil =>
    intro i s hs
    simp only [scanFrom, totalWeight, List.filter_nil, List.map_nil, List.sum_nil, Nat.add_zero]
    exact (Nat.mod_eq_of_lt hs).symm
  | cons a ps ih =>
    intro i s hs
    simp only [scanFrom]
    rw [totalWeight_cons]
    by_cases ha : a.state = procstate.RUNNABLE
    · have hstep : (scanStep i a s).total_weight = (s.total_weight + weight_at a.nice) % 2 ^ 32 := by
        unfold scanStep
        simp only [ha, ne_eq, not_true_eq_false, if_false]
        split <;> rfl
      rw [ih _ _ (by rw [hstep]; exact Nat.mod_lt _ (by norm_num)), hstep, if_pos ha]
      omega
    · rw [scanStep_of_not_runnable i a s ha, ih _ _ hs, if_neg ha, Nat.zero_add]

theorem scan_total_weight (t : List proc) (hlen : t.length = NPROC) :
    (scan t).total_weight = totalWeight t := by
  unfold scan
  rw [scanFrom_total_weight t 0 scanInit (by simp [scanInit])]
  have h := totalWeight_le t
  rw [hlen] at h
  simp only [scanInit, NPROC] at *
  omega

/-! ## Lemmas on the dispatch step -/

/-- The dispatch step on a table of `NPROC` slots with nice values in `0..39`
whose scan selects the slot `p` at index `i`: the slot is RUNNABLE, nothing
wraps, and the step stores the quotient and makes the slot RUNNING. -/
theorem schedulerStep_of_selected (t : List proc) (i : Nat) (p : proc)
    (hlen : t.length = NPROC) (hnice : niceInRange t)
    (hsel : (scan t).min_vrun_p = some i) (hp : t[i]? = some p) :
    p ∈ t ∧ p.state = procstate.RUNNABLE ∧ i < t.length ∧
    weight_at p.nice ≤ 88761 ∧ 0 < totalWeight t ∧ totalWeight t < 2 ^ 32 ∧
    schedulerStep t =
      some (t.set i { p with timeslice := 10000 * weight_at p.nice / totalWeight t,
                             state := procstate.RUNNING }) := by
  have hrun : p.state = procstate.RUNNABLE := by
    rcases scanFrom_spec t 0 scanInit with ⟨h1, _, _⟩ | ⟨k, p0, hk, h1, h2, _, _, _⟩
    · unfold scan at hsel
      rw [h1] at hsel; simp [scanInit] at hsel
    · unfold scan at hsel
      rw [h1] at hsel
      simp at hsel
      subst hsel
      rw [hp] at hk
      cases hk
      exact h2
  have hmem : p ∈ t := List.getElem?_mem hp
  obtain ⟨hw15, hw⟩ := weight_at_bounds p.nice (hnice p hmem).1 (hnice p hmem).2
  have hWle := totalWeight_le t
  rw [hlen] at hWle
  simp only [NPROC] at hWle
  have hWge := totalWeight_ge_of_mem t p hmem hrun
  have hWpos : 0 < totalWeight t := by omega
  have htw := scan_total_weight t hlen
  have hre : (scan t).runnable_exists = 1 :=
    scanFrom_runnable_exists t 0 scanInit ⟨p, hmem, hrun⟩
  have hilt : i < t.length := by
    rcases Nat.lt_or_ge i t.length with h | h
    · exact h
    · rw [List.getElem?_eq_none h] at hp; cases hp
  have hmod : (1000 * 10 * weight_at p.nice) % 2 ^ 32 = 10000 * weight_at p.nice := by
    omega
  refine ⟨hmem, hrun, hilt, hw, hWpos, by omega, ?_⟩
  unfold schedulerStep
  simp only [hre, hsel, hp, htw, if_true]
  rw [if_neg (by omega)]
  simp only [timesliceOf, hmod]

/-! ## Lemmas on `wakeup1` -/

theorem wakeupRunnableExists_eq_zero (t : List proc)
    (h : ∀ q ∈ t, q.state ≠ procstate.RUNNABLE) : wakeupRunnableExists t = 0 := by
  induction t with
  | nil => rfl
  | cons a ps ih =>
    simp only [wakeupRunnableExists]
    rw [if_neg (h a (List.mem_cons_self _ _))]
    exact ih (fun q hq => h q (List.mem_cons_of_mem _ hq))

theorem wakeupRunnableExists_ne_zero (t : List proc)
    (h : ∃ q ∈ t, q.state = procstate.RUNNABLE) : wakeupRunnableExists t ≠ 0 := by
  induction t with
  | nil => simp at h
  | cons a ps ih =>
    simp only [wakeupRunnableExists]
    by_cases ha : a.state = procstate.RUNNABLE
    · rw [if_pos ha]; decide
    · rw [if_neg ha]
      obtain ⟨q, hq, hqr⟩ := h
      rcases List.mem_cons.mp hq with rfl | hq
      · exact absurd hqr ha
      · exact ih ⟨q, hq, hqr⟩

/-- The loop that computes `min_vruntime`: the result is at most the start value
and at most the `vruntime` of every RUNNABLE slot, and it is the start value or
the `vruntime` of a RUNNABLE slot. -/
theorem wakeupMinVruntime_spec (t : List proc) : ∀ m : Nat,
    wakeupMinVruntime m t ≤ m ∧
    (∀ q ∈ t, q.state = procstate.RUNNABLE → wakeupMinVruntime m t ≤ q.vruntime) ∧
    (wakeupMinVruntime m t = m ∨
      ∃ q ∈ t, q.state = procstate.RUNNABLE ∧ q.vruntime = wakeupMinVruntime m t) := by
  induction t with
  | nil => intro m; simp [wakeupMinVruntime]
  | cons a ps ih =>
    intro m
    simp only [wakeupMinVruntime]
    by_cases ha : a.state = procstate.RUNNABLE ∧ a.vruntime < m
    · rw [if_pos ha]
      obtain ⟨h1, h2, h3⟩ := ih a.vruntime
      refine ⟨by omega, ?_, ?_⟩
      · intro q hq hqr
        rcases List.mem_cons.mp hq with rfl | hq
        · exact h1
        · exact h2 q hq hqr
      · right
        rcases h3 with h3 | ⟨q, hq, hqr, hqv⟩
        · exact ⟨a, List.mem_cons_self _ _, ha.1, h3.symm⟩
        · exact ⟨q, List.mem_cons_of_mem _ hq, hqr, hqv⟩
    · rw [if_neg ha]
      obtain ⟨h1, h2, h3⟩ := ih m
      refine ⟨h1, ?_, ?_⟩
      · intro q hq hqr
        rcases List.mem_cons.mp hq with rfl | hq
        · have : m ≤ q.vruntime := by
            by_contra hc
            exact ha ⟨hqr, by omega⟩
          omega
        · exact h2 q hq hqr
      · rcases h3 with h3 | ⟨q, hq, hqr, hqv⟩
        · exact Or.inl h3
        · exact Or.inr ⟨q, List.mem_cons_of_mem _ hq, hqr, hqv⟩

/-- On a table of 32-bit values with a RUNNABLE slot, the local `min_vruntime`
of `wakeup1` is the minimum `vruntime` over the RUNNABLE slots. -/
theorem wakeupMinVruntime_isMin (t : List proc) (hwt : tableWellTyped t)
    (hex : ∃ q ∈ t, q.runnable) : isMinVruntime t (wakeupMinVruntime UINT32_MAX t) := by
  obtain ⟨h1, h2, h3⟩ := wakeupMinVruntime_spec t UINT32_MAX
  refine ⟨?_, h2⟩
  rcases h3 with h3 | h3
  · obtain ⟨q, hq, hqr⟩ := hex
    refine ⟨q, hq, hqr, ?_⟩
    have hle := h2 q hq hqr
    have hlt := (hwt q hq).2.1
    rw [h3] at hle ⊢
    simp only [UINT32_MAX] at hle ⊢
    omega
  · exact h3

theorem isMinVruntime_unique (t : List proc) (M N : Nat)
    (hM : isMinVruntime t M) (hN : isMinVruntime t N) : M = N := by
  obtain ⟨⟨q, hq, hqr, hqv⟩, hMle⟩ := hM
  obtain ⟨⟨r, hr, hrr, hrv⟩, hNle⟩ := hN
  have h1 := hMle r hr hrr
  have h2 := hNle q hq hqr
  omega

theorem wakeup_of_runnable (t : List proc) (c : Nat) (hex : ∃ q ∈ t, q.runnable) :
    wakeup t c = t.map (wakeBehind (wakeupMinVruntime UINT32_MAX t) c) := by
  unfold wakeup wakeup1
  rw [if_neg (wakeupRunnableExists_ne_zero t hex)]

theorem wakeup_of_idle (t : List proc) (c : Nat) (hno : ∀ q ∈ t, ¬ q.runnable) :
    wakeup t c = t.map (wakeZero c) := by
  unfold wakeup wakeup1
  rw [if_pos (wakeupRunnableExists_eq_zero t hno)]

theorem wakeDelta_eq (nice : Int) : wakeDelta nice = 1000 * 1024 / weight_at nice := by
  unfold wakeDelta
  have h20 : weight_at 20 = 1024 := by decide
  have hmod : 1000 * 1024 % 2 ^ 32 = 1000 * 1024 := by norm_num
  rw [h20, hmod]

theorem usub32_cast (M d : Nat) (hd : d ≤ 1024000) :
    ((usub32 M d : Nat) : Int) = ((M : Int) - (d : Int)) % 2 ^ 32 := by
  unfold usub32
  omega

theorem wakeBehind_of_sleeping (m c : Nat) (p : proc) (hs : p.sleepingOn c) :
    wakeBehind m c p =
      { p with vruntime := usub32 m (wakeDelta p.nice), state := procstate.RUNNABLE } := by
  unfold wakeBehind
  exact if_pos hs

theorem wakeBehind_of_not_sleeping (m c : Nat) (p : proc) (hs : ¬ p.sleepingOn c) :
    wakeBehind m c p = p := by
  unfold wakeBehind
  exact if_neg hs

theorem wakeZero_of_sleeping (c : Nat) (p : proc) (hs : p.sleepingOn c) :
    wakeZero c p = { p with vruntime := 0, state := procstate.RUNNABLE } := by
  unfold wakeZero
  exact if_pos hs

theorem wakeZero_of_not_sleeping (c : Nat) (p : proc) (hs : ¬ p.sleepingOn c) :
    wakeZero c p = p := by
  unfold wakeZero
  exact if_neg hs

/-! ## Lemmas on the selection of the scan -/

/-- A slot selected by the scan is RUNNABLE and is the first slot that attains
the least `vruntime` among the RUNNABLE slots. -/
theorem scan_selected_spec (t : List proc) (i : Nat)
    (hsel : (scan t).min_vrun_p = some i) :
    ∃ p, t[i]? = some p ∧ p.runnable ∧
      ∀ j q, t[j]? = some q → q.runnable →
        p.vruntime ≤ q.vruntime ∧ (j < i → p.vruntime < q.vruntime) := by
  unfold scan at hsel
  rcases scanFrom_spec t 0 scanInit with ⟨h1, _, _⟩ | ⟨k, p, hk, h1, h2, _, _, h5⟩
  · rw [h1] at hsel; simp [scanInit] at hsel
  · rw [h1] at hsel
    simp at hsel
    subst hsel
    exact ⟨p, hk, h2, h5⟩

/-- When the scan selects no slot, every RUNNABLE slot has the `vruntime`
`UINT32_MAX` or more. -/
theorem scan_none_spec (t : List proc) (hsel : (scan t).min_vrun_p = none) :
    ∀ q ∈ t, q.runnable → UINT32_MAX ≤ q.vruntime := by
  unfold scan at hsel
  rcases scanFrom_spec t 0 scanInit with ⟨_, _, h3⟩ | ⟨k, p, _, h1, _, _, _, _⟩
  · exact h3
  · rw [h1] at hsel; cases hsel

theorem usub32_no_wrap (M d : Nat) (hM : M < 2 ^ 32) (hd : d ≤ M) :
    usub32 M d = M - d := by
  unfold usub32
  omega

theorem usub32_wrap (M d : Nat) (hM : M < 2 ^ 32) (hd : M < d) (hd2 : d < 2 ^ 32) :
    usub32 M d = M + 2 ^ 32 - d := by
  unfold usub32
  omega

/-! ## Lemmas on `getnice` and `setnice` -/

theorem getniceLoop_of_first (pid : Int) (t : List proc) : ∀ (i : Nat) (p : proc),
    t[i]? = some p → p.pid = pid →
    (∀ (j : Nat) (q : proc), t[j]? = some q → j < i → q.pid ≠ pid) →
    getniceLoop pid t = p.nice := by
  induction t with
  | nil => intro i p hp; simp at hp
  | cons a ps ih =>
    intro i p hp hpid hfirst
    simp only [getniceLoop]
    cases i with
    | zero =>
      simp at hp
      subst hp
      rw [if_pos hpid]
    | succ i =>
      have ha : a.pid ≠ pid := hfirst 0 a (by simp) (by omega)
      rw [if_neg ha]
      simp at hp
      apply ih i p hp hpid
      intro j q hq hj
      exact hfirst (j + 1) q (by simpa using hq) (by omega)

theorem getniceLoop_of_absent (pid : Int) (t : List proc)
    (h : ∀ q ∈ t, q.pid ≠ pid) : getniceLoop pid t = -1 := by
  induction t with
  | nil => rfl
  | cons a ps ih =>
    simp only [getniceLoop]
    rw [if_neg (h a (List.mem_cons_self _ _))]
    exact ih (fun q hq => h q (List.mem_cons_of_mem _ hq))

theorem getniceLoop_of_present (pid : Int) (t : List proc)
    (h : ∃ q ∈ t, q.pid = pid) : ∃ q ∈ t, q.pid = pid ∧ getniceLoop pid t = q.nice := by
  induction t with
  | nil => simp at h
  | cons a ps ih =>
    simp only [getniceLoop]
    by_cases ha : a.pid = pid
    · rw [if_pos ha]
      exact ⟨a, List.mem_cons_self _ _, ha, rfl⟩
    · rw [if_neg ha]
      obtain ⟨q, hq, hqp⟩ := h
      rcases List.mem_cons.mp hq with rfl | hq
      · exact absurd hqp ha
      · obtain ⟨r, hr, hrp, hrn⟩ := ih ⟨q, hq, hqp⟩
        exact ⟨r, List.mem_cons_of_mem _ hr, hrp, hrn⟩

theorem setniceLoop_of_absent (pid value : Int) (t : List proc)
    (h : ∀ q ∈ t, q.pid ≠ pid) : setniceLoop pid value t = (-1, t) := by
  induction t with
  | nil => rfl
  | cons a ps ih =>
    simp only [setniceLoop]
    rw [if_neg (h a (List.mem_cons_self _ _)),
      ih (fun q hq => h q (List.mem_cons_of_mem _ hq))]

theorem setniceLoop_of_present (pid value : Int) (t : List proc)
    (h : ∃ q ∈ t, q.pid = pid) :
    (setniceLoop pid value t).1 = 0 ∧ getniceLoop pid (setniceLoop pid value t).2 = value := by
  induction t with
  | nil => simp at h
  | cons a ps ih =>
    simp only [setniceLoop]
    by_cases ha : a.pid = pid
    · rw [if_pos ha]
      simp [getniceLoop, ha]
    · rw [if_neg ha]
      obtain ⟨q, hq, hqp⟩ := h
      rcases List.mem_cons.mp hq with rfl | hq
      · exact absurd hqp ha
      · obtain ⟨h1, h2⟩ := ih ⟨q, hq, hqp⟩
        refine ⟨h1, ?_⟩
        simp only [getniceLoop]
        rw [if_neg ha]
        exact h2

theorem setnice_of_invalid (t : List proc) (pid value : Int)
    (h : value < 0 ∨ value > 39) : setnice t pid value = (-1, t) := by
  unfold setnice
  rw [if_pos h]

theorem setnice_of_valid (t : List proc) (pid value : Int)
    (h : ¬ (value < 0 ∨ value > 39)) : setnice t pid value = setniceLoop pid value t := by
  unfold setnice
  rw [if_neg h]

/-! ## Lemmas on process creation -/

theorem findUnused_some (t : List proc) : ∀ i : Nat, findUnused t = some i →
    ∃ p, t[i]? = some p ∧ p.state = procstate.UNUSED ∧
      ∀ (j : Nat) (q : proc), t[j]? = some q → j < i → q.state ≠ procstate.UNUSED := by
  induction t with
  | nil => intro i h; simp [findUnused] at h
  | cons a ps ih =>
    intro i h
    simp only [findUnused] at h
    by_cases ha : a.state = procstate.UNUSED
    · rw [if_pos ha] at h
      cases h
      exact ⟨a, by simp, ha, fun j q _ hj => absurd hj (by omega)⟩
    · rw [if_neg ha] at h
      cases hf : findUnused ps with
      | none => rw [hf] at h; cases h
      | some k =>
        rw [hf] at h
        simp only [Option.map_some', Option.some.injEq] at h
        subst h
        obtain ⟨p, hp, hpu, hfirst⟩ := ih k hf
        refine ⟨p, by simpa using hp, hpu, ?_⟩
        intro j q hq hj
        cases j with
        | zero => simp at hq; subst hq; exact ha
        | succ j => exact hfirst j q (by simpa using hq) (by omega)

theorem findUnused_none (t : List proc) (h : findUnused t = none) :
    ∀ q ∈ t, q.state ≠ procstate.UNUSED := by
  induction t with
  | nil => intro q hq; simp at hq
  | cons a ps ih =>
    simp only [findUnused] at h
    by_cases ha : a.state = procstate.UNUSED
    · rw [if_pos ha] at h; cases h
    · rw [if_neg ha] at h
      cases hf : findUnused ps with
      | none =>
        intro q hq
        rcases List.mem_cons.mp hq with rfl | hq
        · exact ha
        · exact ih hf q hq
      | some k => rw [hf] at h; simp at h

theorem findUnused_of_mem (t : List proc) (h : ∃ q ∈ t, q.state = procstate.UNUSED) :
    ∃ i, findUnused t = some i := by
  cases hf : findUnused t with
  | none =>
    obtain ⟨q, hq, hqu⟩ := h
    exact absurd hqu (findUnused_none t hf q hq)
  | some i => exact ⟨i, rfl⟩

theorem allocproc_of_full (k : Kernel) (kalloc_ok : Bool)
    (h : findUnused k.ptable = none) : allocproc k kalloc_ok = (none, k) := by
  unfold allocproc
  rw [h]

theorem allocproc_of_found (k : Kernel) (i : Nat) (p : proc)
    (h : findUnused k.ptable = some i) (hp : k.ptable[i]? = some p) :
    allocproc k true =
      (some i, { ptable := k.ptable.set i (allocInit k.nextpid p), nextpid := wrapInt32 (k.nextpid + 1) }) ∧
    allocproc k false =
      (none, { ptable :=
                 k.ptable.set i ({ allocInit k.nextpid p with state := procstate.UNUSED }),
               nextpid := wrapInt32 (k.nextpid + 1) }) := by
  unfold allocproc
  rw [h]
  simp only [hp]
  exact ⟨rfl, rfl⟩

/-- The three outcomes of `allocproc`. -/
theorem allocproc_cases (k : Kernel) (kalloc_ok : Bool) :
    (findUnused k.ptable = none ∧ allocproc k kalloc_ok = (none, k)) ∨
    (∃ (i : Nat) (p : proc), findUnused k.ptable = some i ∧ k.ptable[i]? = some p ∧
      p.state = procstate.UNUSED ∧ kalloc_ok = true ∧
      allocproc k kalloc_ok =
        (some i, { ptable := k.ptable.set i (allocInit k.nextpid p),
                   nextpid := wrapInt32 (k.nextpid + 1) })) ∨
    (∃ (i : Nat) (p : proc), findUnused k.ptable = some i ∧ k.ptable[i]? = some p ∧
      p.state = procstate.UNUSED ∧ kalloc_ok = false ∧
      allocproc k kalloc_ok =
        (none, { ptable :=
                   k.ptable.set i ({ allocInit k.nextpid p with state := procstate.UNUSED }),
                 nextpid := wrapInt32 (k.nextpid + 1) })) := by
  cases hf : findUnused k.ptable with
  | none => exact Or.inl ⟨rfl, allocproc_of_full k kalloc_ok hf⟩
  | some i =>
    obtain ⟨p, hp, hpu, -⟩ := findUnused_some k.ptable i hf
    obtain ⟨h1, h2⟩ := allocproc_of_found k i p hf hp
    cases kalloc_ok with
    | true => exact Or.inr (Or.inl ⟨i, p, rfl, hp, hpu, rfl, h1⟩)
    | false => exact Or.inr (Or.inr ⟨i, p, rfl, hp, hpu, rfl, h2⟩)

/-! ## Lemmas on the nice invariant -/

theorem niceInRange_set (t : List proc) (i : Nat) (p : proc) (h : niceInRange t)
    (hp : 0 ≤ p.nice ∧ p.nice ≤ 39) : niceInRange (t.set i p) := by
  intro q hq
  rcases List.mem_or_eq_of_mem_set hq with hq | rfl
  · exact h q hq
  · exact hp

theorem niceInRange_boot : niceInRange bootKernel.ptable := by
  intro q hq
  have hq2 : q = unusedSlot := List.eq_of_mem_replicate hq
  subst hq2
  decide

theorem niceInRange_allocproc (k : Kernel) (kalloc_ok : Bool) (h : niceInRange k.ptable) :
    niceInRange (allocproc k kalloc_ok).2.ptable := by
  rcases allocproc_cases k kalloc_ok with ⟨-, he⟩ | ⟨i, p, -, -, -, -, he⟩ | ⟨i, p, -, -, -, -, he⟩
  · rw [he]; exact h
  · rw [he]
    exact niceInRange_set _ _ _ h (by simp [allocInit])
  · rw [he]
    exact niceInRange_set _ _ _ h (by simp [allocInit])

theorem niceInRange_userinit (k k' : Kernel) (kalloc_ok setupkvm_ok : Bool)
    (h : niceInRange k.ptable) (hk : userinit k kalloc_ok setupkvm_ok = some k') :
    niceInRange k'.ptable := by
  have h1 := niceInRange_allocproc k kalloc_ok h
  unfold userinit at hk
  cases ha : allocproc k kalloc_ok with
  | mk r k1 =>
    rw [ha] at hk h1
    cases r with
    | none => cases hk
    | some i =>
      simp only at hk h1
      cases setupkvm_ok with
      | false => simp at hk
      | true =>
        simp only [if_true] at hk
        cases hp : k1.ptable[i]? with
        | none => rw [hp] at hk; cases hk
        | some p =>
          rw [hp] at hk
          simp only [Option.some.injEq] at hk
          subst hk
          exact niceInRange_set _ _ _ h1 (by simp)

theorem niceInRange_fork (k k' : Kernel) (cur : Nat) (kalloc_ok copyuvm_ok : Bool) (r : Int)
    (h : niceInRange k.ptable) (hk : fork k cur kalloc_ok copyuvm_ok = some (r, k')) :
    niceInRange k'.ptable := by
  have h1 := niceInRange_allocproc k kalloc_ok h
  unfold fork at hk
  cases ha : allocproc k kalloc_ok with
  | mk a k1 =>
    rw [ha] at hk h1
    cases a with
    | none =>
      simp only [Option.some.injEq, Prod.mk.injEq] at hk
      rw [← hk.2]
      exact h1
    | some i =>
      simp only at hk h1
      cases hnp : k1.ptable[i]? with
      | none => rw [hnp] at hk; simp at hk
      | some np =>
        cases hcp : k1.ptable[cur]? with
        | none => rw [hnp, hcp] at hk; simp at hk
        | some curproc =>
          rw [hnp, hcp] at hk
          simp only at hk
          have hcur := h1 curproc (List.getElem?_mem hcp)
          have hnpr := h1 np (List.getElem?_mem hnp)
          cases copyuvm_ok with
          | true =>
            simp only [if_true, Option.some.injEq, Prod.mk.injEq] at hk
            rw [← hk.2]
            exact niceInRange_set _ _ _ h1 hcur
          | false =>
            simp only [Bool.false_eq_true, if_false, Option.some.injEq, Prod.mk.injEq] at hk
            rw [← hk.2]
            exact niceInRange_set _ _ _ h1 hnpr

theorem niceInRange_setniceLoop (pid value : Int) (hv : 0 ≤ value ∧ value ≤ 39)
    (t : List proc) (h : niceInRange t) : niceInRange (setniceLoop pid value t).2 := by
  induction t with
  | nil => intro q hq; simp [setniceLoop] at hq
  | cons a ps ih =>
    have hps : niceInRange ps := fun q hq => h q (List.mem_cons_of_mem _ hq)
    simp only [setniceLoop]
    by_cases ha : a.pid = pid
    · rw [if_pos ha]
      intro q hq
      rcases List.mem_cons.mp hq with rfl | hq
      · exact hv
      · exact hps q hq
    · rw [if_neg ha]
      intro q hq
      rcases List.mem_cons.mp hq with rfl | hq
      · exact h q (List.mem_cons_self _ _)
      · exact ih hps q hq

theorem niceInRange_setnice (t : List proc) (pid value : Int) (h : niceInRange t) :
    niceInRange (setnice t pid value).2 := by
  by_cases hv : value < 0 ∨ value > 39
  · rw [setnice_of_invalid t pid value hv]
    exact h
  · rw [setnice_of_valid t pid value hv]
    exact niceInRange_setniceLoop pid value (by omega) t h

theorem niceInRange_map (t : List proc) (f : proc → proc) (hf : ∀ p, (f p).nice = p.nice)
    (h : niceInRange t) : niceInRange (t.map f) := by
  intro q hq
  obtain ⟨p, hp, rfl⟩ := List.mem_map.mp hq
  rw [hf p]
  exact h p hp

theorem wakeBehind_nice (m c : Nat) (p : proc) : (wakeBehind m c p).nice = p.nice := by
  unfold wakeBehind
  split <;> rfl

theorem wakeZero_nice (c : Nat) (p : proc) : (wakeZero c p).nice = p.nice := by
  unfold wakeZero
  split <;> rfl

theorem niceInRange_wakeup (t : List proc) (c : Nat) (h : niceInRange t) :
    niceInRange (wakeup t c) := by
  unfold wakeup wakeup1
  split
  · exact niceInRange_map t _ (wakeZero_nice c) h
  · exact niceInRange_map t _ (wakeBehind_nice _ c) h

/-! ## Lemmas on `kill` -/

/-- The two outcomes of `kill`: no slot has the pid and nothing changes, or the
first slot with the pid is rewritten by `killSlot`. -/
theorem kill_cases (pid : Int) (t : List proc) :
    ((∀ q ∈ t, q.pid ≠ pid) ∧ kill t pid = (-1, t)) ∨
    (∃ (i : Nat) (p : proc), t[i]? = some p ∧ p.pid = pid ∧
      (∀ (j : Nat) (q : proc), t[j]? = some q → j < i → q.pid ≠ pid) ∧
      kill t pid = (0, t.set i (killSlot p))) := by
  unfold kill
  induction t with
  | nil => left; exact ⟨fun q hq => by simp at hq, rfl⟩
  | cons a ps ih =>
    simp only [killLoop]
    by_cases ha : a.pid = pid
    · right
      rw [if_pos ha]
      exact ⟨0, a, by simp, ha, fun j q _ hj => absurd hj (by omega), by simp⟩
    · rw [if_neg ha]
      rcases ih with ⟨hall, he⟩ | ⟨i, p, hp, hpid, hfirst, he⟩
      · left
        rw [he]
        refine ⟨?_, rfl⟩
        intro q hq
        rcases List.mem_cons.mp hq with rfl | hq
        · exact ha
        · exact hall q hq
      · right
        rw [he]
        refine ⟨i + 1, p, by simpa using hp, hpid, ?_, by simp⟩
        intro j q hq hj
        cases j with
        | zero => simp at hq; subst hq; exact ha
        | succ j => exact hfirst j q (by simpa using hq) (by omega)

theorem killSlot_nice (p : proc) : (killSlot p).nice = p.nice := rfl

theorem niceInRange_kill (t : List proc) (pid : Int) (h : niceInRange t) :
    niceInRange (kill t pid).2 := by
  rcases kill_cases pid t with ⟨-, he⟩ | ⟨i, p, hp, -, -, he⟩
  · rw [he]; exact h
  · rw [he]
    exact niceInRange_set _ _ _ h (h p (List.getElem?_mem hp))

/-! ## Lemmas on `yield` and `sleep` -/

theorem niceInRange_yield (t t' : List proc) (cur : Nat) (h : niceInRange t)
    (hy : yield t cur = some t') : niceInRange t' := by
  unfold yield at hy
  cases hp : t[cur]? with
  | none => rw [hp] at hy; cases hy
  | some p =>
    rw [hp] at hy
    simp only [Option.some.injEq] at hy
    subst hy
    exact niceInRange_set _ _ _ h (h p (List.getElem?_mem hp))

theorem niceInRange_sleep (t t' : List proc) (cur chan lk : Nat) (h : niceInRange t)
    (hs : sleep t cur chan lk = some t') : niceInRange t' := by
  unfold sleep at hs
  cases hp : t[cur]? with
  | none => rw [hp] at hs; cases hs
  | some p =>
    rw [hp] at hs
    by_cases hlk : lk = 0
    · simp [hlk] at hs
    · simp only [hlk, if_false, Option.some.injEq] at hs
      subst hs
      exact niceInRange_set _ _ _ h (h p (List.getElem?_mem hp))

theorem niceInRange_sleepTidy (t t' : List proc) (cur : Nat) (h : niceInRange t)
    (hs : sleepTidy t cur = some t') : niceInRange t' := by
  unfold sleepTidy at hs
  cases hp : t[cur]? with
  | none => rw [hp] at hs; cases hs
  | some p =>
    rw [hp] at hs
    simp only [Option.some.injEq] at hs
    subst hs
    exact niceInRange_set _ _ _ h (h p (List.getElem?_mem hp))

/-! ## Lemmas on the frame of the dispatch step -/

/-- The outcomes of a dispatch step that returns: the table is unchanged and the
scan saw no RUNNABLE slot, or the selected slot is rewritten. -/
theorem schedulerStep_cases (t t' : List proc) (h : schedulerStep t = some t') :
    ((scan t).runnable_exists ≠ 1 ∧ t' = t) ∨
    (∃ (i : Nat) (p : proc), (scan t).runnable_exists = 1 ∧
      (scan t).min_vrun_p = some i ∧ t[i]? = some p ∧ (scan t).total_weight ≠ 0 ∧
      t' = t.set i { p with timeslice := timesliceOf p.nice (scan t).total_weight,
                            state := procstate.RUNNING }) := by
  unfold schedulerStep at h
  by_cases hre : (scan t).runnable_exists = 1
  · right
    simp only [hre, if_true] at h
    cases hsel : (scan t).min_vrun_p with
    | none => rw [hsel] at h; cases h
    | some i =>
      rw [hsel] at h
      simp only at h
      cases hp : t[i]? with
      | none => rw [hp] at h; cases h
      | some p =>
        rw [hp] at h
        simp only at h
        by_cases hw : (scan t).total_weight = 0
        · rw [if_pos hw] at h; cases h
        · rw [if_neg hw] at h
          exact ⟨i, p, hre, rfl, hp, hw, (Option.some.inj h).symm⟩
  · left
    simp only [hre, if_false, Option.some.injEq] at h
    exact ⟨hre, h.symm⟩

theorem niceInRange_schedulerStep (t t' : List proc) (h : niceInRange t)
    (hs : schedulerStep t = some t') : niceInRange t' := by
  rcases schedulerStep_cases t t' hs with ⟨-, he⟩ | ⟨i, p, -, -, hp, -, he⟩
  · rw [he]; exact h
  · rw [he]
    exact niceInRange_set _ _ _ h (h p (List.getElem?_mem hp))

/-- The nice invariant holds in every reachable state. -/
theorem niceInRange_of_reachable (k : Kernel) (h : Reachable k) : niceInRange k.ptable := by
  induction h with
  | boot => exact niceInRange_boot
  | allocproc k ok _ ih => exact niceInRange_allocproc k ok ih
  | userinit k k' ok1 ok2 _ hk ih => exact niceInRange_userinit k k' ok1 ok2 ih hk
  | fork k k' cur ok1 ok2 r _ hk ih => exact niceInRange_fork k k' cur ok1 ok2 r ih hk
  | setnice k pid value _ ih => exact niceInRange_setnice k.ptable pid value ih
  | wakeup k chan _ ih => exact niceInRange_wakeup k.ptable chan ih
  | kill k pid _ ih => exact niceInRange_kill k.ptable pid ih
  | yield k cur t' _ hy ih => exact niceInRange_yield k.ptable t' cur ih hy
  | sleep k cur chan lk t' _ hs ih => exact niceInRange_sleep k.ptable t' cur chan lk ih hs
  | sleepTidy k cur t' _ hs ih => exact niceInRange_sleepTidy k.ptable t' cur ih hs
  | dispatch k t' _ hs ih => exact niceInRange_schedulerStep k.ptable t' ih hs

/-! ## Lemmas on `fork` -/

theorem findUnused_unique (t : List proc) (i : Nat) (p : proc)
    (hp : t[i]? = some p) (hpu : p.state = procstate.UNUSED)
    (hfirst : ∀ (j : Nat) (q : proc), t[j]? = some q → j < i → q.state ≠ procstate.UNUSED) :
    findUnused t = some i := by
  obtain ⟨i', hf⟩ := findUnused_of_mem t ⟨p, List.getElem?_mem hp, hpu⟩
  obtain ⟨p', hp', hpu', hfirst'⟩ := findUnused_some t i' hf
  rcases Nat.lt_trichotomy i i' with h | h | h
  · exact absurd hpu (hfirst' i p hp h)
  · rw [hf, h]
  · exact absurd hpu' (hfirst i' p' hp' h)

theorem getElem?_lt_length (t : List proc) (i : Nat) (p : proc) (hp : t[i]? = some p) :
    i < t.length := by
  rcases Nat.lt_or_ge i t.length with h | h
  · exact h
  · rw [List.getElem?_eq_none h] at hp; cases hp

/-! ## Lemmas on decimal digits -/

theorem decimalFuel_fuel (fuel1 : Nat) : ∀ (fuel2 n : Nat), n < fuel1 → n < fuel2 →
    decimalFuel fuel1 n = decimalFuel fuel2 n := by
  induction fuel1 with
  | zero => intro fuel2 n h; omega
  | succ f1 ih =>
    intro fuel2 n h1 h2
    cases fuel2 with
    | zero => omega
    | succ f2 =>
      simp only [decimalFuel]
      by_cases hn : n < 10
      · rw [if_pos hn, if_pos hn]
      · rw [if_neg hn, if_neg hn, ih f2 (n / 10) (by omega) (by omega)]

theorem decimal_of_lt_ten (n : Nat) (h : n < 10) : decimal n = [digitChar n] := by
  simp only [decimal, decimalFuel]
  rw [if_pos h]

theorem decimal_of_ge_ten (n : Nat) (h : 10 ≤ n) :
    decimal n = decimal (n / 10) ++ [digitChar (n % 10)] := by
  have hstep : decimalFuel (n + 1) n =
      if n < 10 then [digitChar n] else decimalFuel n (n / 10) ++ [digitChar (n % 10)] := rfl
  unfold decimal
  rw [hstep, if_neg (by omega), decimalFuel_fuel n (n / 10 + 1) (n / 10) (by omega) (by omega)]

theorem decimal_mul_ten (n : Nat) (h : 0 < n) :
    decimal (n * 10) = decimal n ++ [digitChar 0] := by
  rw [decimal_of_ge_ten (n * 10) (by omega)]
  have h1 : n * 10 / 10 = n := by omega
  have h2 : n * 10 % 10 = 0 := by omega
  rw [h1, h2]

theorem decimal_mul_thousand (n : Nat) (h : 0 < n) :
    decimal (n * 1000) = decimal n ++ String.toList "000" := by
  have he : n * 1000 = n * 10 * 10 * 10 := by omega
  rw [he, decimal_mul_ten (n * 10 * 10) (by omega), decimal_mul_ten (n * 10) (by omega),
    decimal_mul_ten n h]
  simp only [List.append_assoc]
  rfl

theorem decimal_length_pos (n : Nat) : 1 ≤ (decimal n).length := by
  by_cases h : n < 10
  · rw [decimal_of_lt_ten n h]; simp
  · rw [decimal_of_ge_ten n (by omega)]; simp

theorem decimal_length_le (k : Nat) : ∀ n : Nat, n < 10 ^ (k + 1) →
    (decimal n).length ≤ k + 1 := by
  induction k with
  | zero =>
    intro n hn
    rw [decimal_of_lt_ten n (by simpa using hn)]
    simp
  | succ k ih =>
    intro n hn
    by_cases h : n < 10
    · rw [decimal_of_lt_ten n h]; simp
    · rw [decimal_of_ge_ten n (by omega)]
      have hdiv : n / 10 < 10 ^ (k + 1) := by
        rw [Nat.div_lt_iff_lt_mul (by norm_num)]
        rw [pow_succ] at hn
        exact hn
      have := ih (n / 10) hdiv
      simp only [List.length_append, List.length_singleton]
      omega

theorem decimal_length_le_ten (n : Nat) (h : n < 2 ^ 32) : (decimal n).length ≤ 10 :=
  decimal_length_le 9 n (by norm_num at h ⊢; omega)

theorem digit_lenLoop_eq (fuel : Nat) : ∀ (num : Nat) (len : Int), num ≤ fuel →
    digit_lenLoop fuel num len = len - 1 + ((decimal num).length : Int) := by
  induction fuel with
  | zero =>
    intro num len h
    have h0 : num = 0 := by omega
    subst h0
    simp only [digit_lenLoop]
    rw [decimal_of_lt_ten 0 (by norm_num)]
    simp
  | succ f ih =>
    intro num len h
    simp only [digit_lenLoop]
    by_cases hn : num ≥ 10
    · rw [if_pos hn, ih (num / 10) (len + 1) (by omega), decimal_of_ge_ten num hn]
      simp only [List.length_append, List.length_singleton]
      push_cast
      ring
    · rw [if_neg hn, decimal_of_lt_ten num (by omega)]
      simp

theorem digit_len_eq (num : Nat) : digit_len num = ((decimal num).length : Int) := by
  unfold digit_len
  rw [digit_lenLoop_eq num num 1 (Nat.le_refl _)]
  omega

theorem pid_lengthLoop_eq (fuel : Nat) : ∀ (n : Nat) (len : Int),
    pid_lengthLoop fuel (n : Int) len = digit_lenLoop fuel n len := by
  induction fuel with
  | zero => intro n len; rfl
  | succ f ih =>
    intro n len
    simp only [pid_lengthLoop, digit_lenLoop]
    by_cases hn : n ≥ 10
    · have hn' : (n : Int) ≥ 10 := by omega
      have hdiv : (n : Int) / 10 = ((n / 10 : Nat) : Int) := by omega
      rw [if_pos hn, if_pos hn', hdiv, ih]
    · have hn' : ¬ (n : Int) ≥ 10 := by omega
      rw [if_neg hn, if_neg hn']

theorem pid_length_eq (pid : Int) (h : 0 ≤ pid) :
    pid_length pid = ((decimal pid.toNat).length : Int) := by
  unfold pid_length
  have hp : pid = ((pid.toNat : Nat) : Int) := by omega
  rw [hp, pid_lengthLoop_eq]
  simp only [Int.toNat_ofNat]
  exact digit_len_eq pid.toNat

theorem fmt_d_of_nonneg (x : Int) (h : 0 ≤ x) : fmt_d x = decimal x.toNat := by
  unfold fmt_d
  rw [if_neg (by omega)]

theorem toInt32_of_lt (n : Nat) (h : n < 2 ^ 31) : toInt32 n = (n : Int) := by
  unfold toInt32
  have hm : n % 2 ^ 32 = n := Nat.mod_eq_of_lt (by omega)
  rw [hm, if_pos h]

/-! ## Lemmas on the fields of a row of `ps` -/

theorem padRight_length (w : Nat) (s : List Char) (h : s.length ≤ w) :
    (padRight w s).length = w := by
  unfold padRight
  simp only [List.length_append, List.length_replicate]
  omega

theorem spaces_eq (w : Nat) (s : List Char) (len : Int) (hlen : len = (s.length : Int)) :
    s ++ spaces ((w : Int) - len) = padRight w s := by
  unfold spaces padRight
  have h : ((w : Int) - len).toNat = w - s.length := by omega
  rw [h]

theorem decimal_nice_length (nice : Int) (h0 : 0 ≤ nice) (h1 : nice ≤ 39) :
    (decimal nice.toNat).length = if nice > 9 then 2 else 1 := by
  interval_cases nice <;> decide

theorem procstate_str_length (st : procstate) : (procstate_str st).length ≤ 14 := by
  cases st <;> decide

theorem psMatching_append (total_ticks : Nat) (pid : Int) (l1 l2 : List proc) :
    psMatching total_ticks pid (l1 ++ l2) =
      psMatching total_ticks pid l1 ++ psMatching total_ticks pid l2 := by
  induction l1 with
  | nil => rfl
  | cons a l ih =>
    show (if a.pid = pid then psHeader total_ticks ++ psRow a else []) ++
        psMatching total_ticks pid (l ++ l2) = _
    rw [ih]
    simp only [psMatching, List.append_assoc]

/-! ## Lemmas on a table with a single RUNNABLE slot -/

theorem totalWeight_of_no_runnable (t : List proc)
    (h : ∀ q ∈ t, q.state ≠ procstate.RUNNABLE) : totalWeight t = 0 := by
  induction t with
  | nil => rfl
  | cons a ps ih =>
    rw [totalWeight_cons, if_neg (h a (List.mem_cons_self _ _)),
      ih (fun q hq => h q (List.mem_cons_of_mem _ hq))]

theorem totalWeight_of_single (t : List proc) : ∀ (i : Nat) (p : proc),
    t[i]? = some p → p.state = procstate.RUNNABLE →
    (∀ (j : Nat) (q : proc), t[j]? = some q → q.state = procstate.RUNNABLE → j = i) →
    totalWeight t = weight_at p.nice := by
  induction t with
  | nil => intro i p hp; simp at hp
  | cons a ps ih =>
    intro i p hp hr huniq
    rw [totalWeight_cons]
    cases i with
    | zero =>
      simp at hp
      subst hp
      have hps : ∀ q ∈ ps, q.state ≠ procstate.RUNNABLE := by
        intro q hq hqr
        obtain ⟨j, hj⟩ := List.mem_iff_getElem?.mp hq
        have := huniq (j + 1) q (by simpa using hj) hqr
        omega
      rw [if_pos hr, totalWeight_of_no_runnable ps hps, Nat.add_zero]
    | succ i =>
      have ha : a.state ≠ procstate.RUNNABLE := by
        intro har
        have := huniq 0 a (by simp) har
        omega
      rw [if_neg ha, Nat.zero_add]
      apply ih i p (by simpa using hp) hr
      intro j q hq hqr
      have := huniq (j + 1) q (by simpa using hq) hqr
      omega

/-- On a table of `NPROC` slots with nice values in `0..39` whose only RUNNABLE
slot `p`, at index `i`, has a `vruntime` below `UINT32_MAX`, the dispatch step
selects `p`, stores the timeslice 10000 and makes the slot RUNNING. -/
theorem schedulerStep_of_single_runnable (t : List proc) (i : Nat) (p : proc)
    (hlen : t.length = NPROC) (hnice : niceInRange t)
    (hp : t[i]? = some p) (hr : p.state = procstate.RUNNABLE)
    (huniq : ∀ (j : Nat) (q : proc), t[j]? = some q → q.state = procstate.RUNNABLE → j = i)
    (hv : p.vruntime < UINT32_MAX) :
    (scan t).min_vrun_p = some i ∧
    schedulerStep t = some (t.set i { p with timeslice := 10000, state := procstate.RUNNING }) := by
  have hsel : (scan t).min_vrun_p = some i := by
    cases hs : (scan t).min_vrun_p with
    | none =>
      have := scan_none_spec t hs p (List.getElem?_mem hp) hr
      omega
    | some j =>
      obtain ⟨q, hq, hqr, -⟩ := scan_selected_spec t j hs
      rw [huniq j q hq hqr]
  obtain ⟨hmem, -, -, -, -, -, hstep⟩ := schedulerStep_of_selected t i p hlen hnice hsel hp
  have hW := totalWeight_of_single t i p hp hr huniq
  have hw := (weight_at_bounds p.nice (hnice p hmem).1 (hnice p hmem).2).1
  refine ⟨hsel, ?_⟩
  rw [hstep, hW, Nat.mul_div_cancel _ (by omega)]

/-! ## Lemmas on the output of `ps` -/

theorem psMatching_eq_flatten (total_ticks : Nat) (pid : Int) (t : List proc) :
    psMatching total_ticks pid t =
      ((t.filter (fun p => p.pid = pid)).map
        (fun p => psHeader total_ticks ++ psRow p)).flatten := by
  induction t with
  | nil => rfl
  | cons a ps ih =>
    simp only [psMatching]
    by_cases ha : a.pid = pid
    · rw [if_pos ha, ih]
      simp [List.filter_cons, ha]
    · rw [if_neg ha, ih]
      simp [List.filter_cons, ha]

theorem psAll_eq_flatten (t : List proc) :
    psAll t = ((t.filter (fun p => p.state ≠ procstate.UNUSED)).map psRow).flatten := by
  induction t with
  | nil => rfl
  | cons a ps ih =>
    simp only [psAll]
    by_cases ha : a.state = procstate.UNUSED
    · rw [if_neg (by simp [ha]), ih]
      simp [List.filter_cons, ha]
    · rw [if_pos ha, ih]
      simp [List.filter_cons, ha]

theorem psMatching_of_absent (total_ticks : Nat) (pid : Int) (t : List proc)
    (h : ∀ q ∈ t, q.pid ≠ pid) : psMatching total_ticks pid t = [] := by
  induction t with
  | nil => rfl
  | cons a ps ih =>
    simp only [psMatching]
    rw [if_neg (h a (List.mem_cons_self _ _)),
      ih (fun q hq => h q (List.mem_cons_of_mem _ hq))]
    rfl

/-! ## Lemmas on the lines of the output of `ps` -/

theorem digitChar_ne_newline (d : Nat) (h : d < 10) : Char.ofNat 10 ≠ digitChar d := by
  interval_cases d <;> decide

theorem newline_not_mem_decimalFuel (fuel : Nat) : ∀ n : Nat,
    Char.ofNat 10 ∉ decimalFuel fuel n := by
  induction fuel with
  | zero => intro n; simp [decimalFuel]
  | succ f ih =>
    intro n
    simp only [decimalFuel]
    by_cases hn : n < 10
    · rw [if_pos hn]
      intro hm
      exact digitChar_ne_newline n hn (List.mem_singleton.mp hm)
    · rw [if_neg hn]
      intro hm
      rcases List.mem_append.mp hm with hm | hm
      · exact ih (n / 10) hm
      · exact digitChar_ne_newline (n % 10) (Nat.mod_lt _ (by norm_num)) (List.mem_singleton.mp hm)

theorem newline_not_mem_decimal (n : Nat) : Char.ofNat 10 ∉ decimal n :=
  newline_not_mem_decimalFuel (n + 1) n

theorem newline_not_mem_fmt_d (x : Int) : Char.ofNat 10 ∉ fmt_d x := by
  unfold fmt_d
  split
  · intro hm
    rcases List.mem_cons.mp hm with hm | hm
    · exact absurd hm (by decide)
    · exact newline_not_mem_decimal _ hm
  · exact newline_not_mem_decimal _

theorem newline_not_mem_spaces (bound : Int) : Char.ofNat 10 ∉ spaces bound := by
  unfold spaces
  intro hm
  exact absurd (List.eq_of_mem_replicate hm) (by decide)

theorem newline_not_mem_procstate_str (st : procstate) :
    Char.ofNat 10 ∉ procstate_str st := by
  cases st <;> decide

/-- The part of a row of `ps` between the name and the vruntime. -/
theorem psRow_shape (p : proc) :
    ∃ mid : List Char,
      psRow p = p.name ++ mid ++ (decimal p.vruntime ++ [Char.ofNat 10]) ∧
      Char.ofNat 10 ∉ mid := by
  refine ⟨spaces (16 - strlen p.name) ++
    (fmt_d p.pid ++ spaces (11 - pid_length p.pid)) ++
    (procstate_str p.state ++ spaces (14 - strlen (procstate_str p.state))) ++
    (fmt_d p.nice ++ spaces (if p.nice > 9 then 11 else 12)) ++
    (fmt_u (p.runtime / weight_at p.nice) ++
      spaces (17 - digit_len (p.runtime / weight_at p.nice))) ++
    (fmt_u p.runtime ++ spaces (13 - digit_len p.runtime)), ?_, ?_⟩
  · simp only [psRow, fmt_u, List.append_assoc]
  · simp only [List.mem_append, not_or, fmt_u]
    exact ⟨⟨⟨⟨⟨newline_not_mem_spaces _,
      newline_not_mem_fmt_d _, newline_not_mem_spaces _⟩,
      newline_not_mem_procstate_str _, newline_not_mem_spaces _⟩,
      newline_not_mem_fmt_d _, newline_not_mem_spaces _⟩,
      newline_not_mem_decimal _, newline_not_mem_spaces _⟩,
      newline_not_mem_decimal _, newline_not_mem_spaces _⟩

theorem count_newline_psRow (p : proc) (hname : Char.ofNat 10 ∉ p.name) :
    List.count (Char.ofNat 10) (psRow p) = 1 := by
  obtain ⟨mid, hrow, hmid⟩ := psRow_shape p
  rw [hrow]
  simp only [List.count_append, List.count_eq_zero.mpr hname, List.count_eq_zero.mpr hmid,
    List.count_eq_zero.mpr (newline_not_mem_decimal p.vruntime)]
  decide

set_option maxRecDepth 8000 in
theorem newline_not_mem_psTitles : Char.ofNat 10 ∉ psTitles := by
  decide

theorem count_newline_psHeader (total_ticks : Nat) :
    List.count (Char.ofNat 10) (psHeader total_ticks) = 1 := by
  unfold psHeader
  simp only [List.count_append, List.count_eq_zero.mpr newline_not_mem_psTitles,
    List.count_eq_zero.mpr (newline_not_mem_fmt_d _)]
  decide

theorem count_newline_psAll (t : List proc) (hnames : ∀ q ∈ t, Char.ofNat 10 ∉ q.name) :
    List.count (Char.ofNat 10) (psAll t) =
      (t.filter (fun p => p.state ≠ procstate.UNUSED)).length := by
  induction t with
  | nil => rfl
  | cons a ps ih =>
    have iht := ih (fun q hq => hnames q (List.mem_cons_of_mem _ hq))
    simp only [psAll, List.count_append, iht]
    by_cases ha : a.state = procstate.UNUSED
    · simp [List.filter_cons, ha]
    · rw [if_pos ha, count_newline_psRow a (hnames a (List.mem_cons_self _ _))]
      simp [List.filter_cons, ha]
      omega

theorem count_newline_psMatching (total_ticks : Nat) (pid : Int) (t : List proc)
    (hnames : ∀ q ∈ t, Char.ofNat 10 ∉ q.name) :
    List.count (Char.ofNat 10) (psMatching total_ticks pid t) =
      2 * (t.filter (fun p => p.pid = pid)).length := by
  induction t with
  | nil => rfl
  | cons a ps ih =>
    have iht := ih (fun q hq => hnames q (List.mem_cons_of_mem _ hq))
    simp only [psMatching, List.count_append, iht]
    by_cases ha : a.pid = pid
    · rw [if_pos ha, List.count_append, count_newline_psHeader,
        count_newline_psRow a (hnames a (List.mem_cons_self _ _))]
      simp [List.filter_cons, ha]
      omega
    · simp [List.filter_cons, ha]

/-! ## Theorems -/

/-- C1: if the scan of `scheduler` selects the slot at index `i`, that slot is
RUNNABLE, its `vruntime` is at most the `vruntime` of every RUNNABLE slot, and
every RUNNABLE slot before it in table order has a strictly greater `vruntime`:
the selected process is the first one that attains the minimum. -/
theorem scan_selects_first_min (t : List proc) (i : Nat)
    (hsel : (scan t).min_vrun_p = some i) :
    ∃ p, t[i]? = some p ∧ p.runnable ∧
      ∀ j q, t[j]? = some q → q.runnable →
        p.vruntime ≤ q.vruntime ∧ (j < i → p.vruntime < q.vruntime) := by
  unfold scan at hsel
  rcases scanFrom_spec t 0 scanInit with ⟨hsame, _, _⟩ | ⟨k, p, hk, hptr, hrun, _, _, hmin⟩
  · -- the pointer is still null: nothing was selected
    rw [hsame] at hsel
    simp [scanInit] at hsel
  · -- the pointer is the first slot attaining the minimum
    rw [hptr] at hsel
    simp only [Nat.zero_add, Option.some.injEq] at hsel
    subst hsel
    exact ⟨p, hk, hrun, hmin⟩

/-- Witness of C1 on `sampleTies`: the scan selects index 1, the first of the
two slots that attain the least `vruntime`. -/
theorem scan_selects_first_min_witness :
    (scan sampleTies).min_vrun_p = some 1 ∧
    ∃ p, sampleTies[1]? = some p ∧ p.runnable ∧
      ∀ j q, sampleTies[j]? = some q → q.runnable →
        p.vruntime ≤ q.vruntime ∧ (j < 1 → p.vruntime < q.vruntime) :=
  ⟨by decide, scan_selects_first_min sampleTies 1 (by decide)⟩

/-- C2: on a table of `NPROC` slots with nice values in `0..39` in which the
scan selects the slot `p` at index `i`, neither `1000*10*weight[p.nice]` nor the
sum of the weights of the RUNNABLE slots leaves the 32-bit range, the sum `W`
computed by the scan is the exact total weight and is positive, the dispatch
step succeeds, and the timeslice it stores in the selected slot is the integer
quotient of `10000 * weight[p.nice]` by `W`:
`timeslice * W ≤ 10000 * weight[p.nice] < (timeslice + 1) * W`. -/
theorem dispatch_timeslice_exact (t : List proc) (i : Nat) (p : proc)
    (hlen : t.length = NPROC) (hnice : niceInRange t)
    (hsel : (scan t).min_vrun_p = some i) (hp : t[i]? = some p) :
    1000 * 10 * weight_at p.nice < 2 ^ 32 ∧ totalWeight t < 2 ^ 32 ∧
    (scan t).total_weight = totalWeight t ∧ 0 < totalWeight t ∧
    ∃ t' p', schedulerStep t = some t' ∧ t'[i]? = some p' ∧
      p'.timeslice = 10000 * weight_at p.nice / totalWeight t ∧
      p'.timeslice * totalWeight t ≤ 10000 * weight_at p.nice ∧
      10000 * weight_at p.nice < (p'.timeslice + 1) * totalWeight t := by
  obtain ⟨hmem, hrun, hilt, hw, hWpos, hWlt, hstep⟩ :=
    schedulerStep_of_selected t i p hlen hnice hsel hp
  refine ⟨by omega, hWlt, scan_total_weight t hlen, hWpos, _,
    { p with timeslice := 10000 * weight_at p.nice / totalWeight t,
             state := procstate.RUNNING }, hstep, ?_, rfl, ?_, ?_⟩
  · simp [hilt]
  · exact Nat.div_mul_le_self _ _
  · show 10000 * weight_at p.nice <
      (10000 * weight_at p.nice / totalWeight t + 1) * totalWeight t
    rw [Nat.mul_comm (_ + 1) (totalWeight t)]
    exact Nat.lt_mul_div_succ _ hWpos

/-- Witness of C2 on `sampleTies`, where the scan selects index 1. -/
theorem dispatch_timeslice_exact_witness :
    (sampleTies.length = NPROC ∧ niceInRange sampleTies ∧
      (scan sampleTies).min_vrun_p = some 1 ∧
      sampleTies[1]? = some (mkSlot 2 procstate.RUNNABLE 10 300)) ∧
    (1000 * 10 * weight_at (mkSlot 2 procstate.RUNNABLE 10 300).nice < 2 ^ 32 ∧
    totalWeight sampleTies < 2 ^ 32 ∧
    (scan sampleTies).total_weight = totalWeight sampleTies ∧ 0 < totalWeight sampleTies ∧
    ∃ t' p', schedulerStep sampleTies = some t' ∧ t'[1]? = some p' ∧
      p'.timeslice =
        10000 * weight_at (mkSlot 2 procstate.RUNNABLE 10 300).nice / totalWeight sampleTies ∧
      p'.timeslice * totalWeight sampleTies ≤
        10000 * weight_at (mkSlot 2 procstate.RUNNABLE 10 300).nice ∧
      10000 * weight_at (mkSlot 2 procstate.RUNNABLE 10 300).nice <
        (p'.timeslice + 1) * totalWeight sampleTies) :=
  ⟨⟨by decide, by decide, by decide, by decide⟩,
   dispatch_timeslice_exact sampleTies 1 (mkSlot 2 procstate.RUNNABLE 10 300)
     (by decide) (by decide) (by decide) (by decide)⟩

/-- Counterexample to C3 on `sampleTiny`: the scan selects the process of nice
39 (weight 15) while the total weight is `15 + 2 * 88761 = 177537`, more than
`10000 * 15`, and the dispatch step stores the timeslice 0. -/
theorem timeslice_ge_one_counterexample :
    sampleTiny.length = NPROC ∧ niceInRange sampleTiny ∧
    (scan sampleTiny).min_vrun_p = some 0 ∧
    ∃ t' p', schedulerStep sampleTiny = some t' ∧ t'[0]? = some p' ∧
      p'.timeslice = 0 ∧ ¬ 1 ≤ p'.timeslice :=
  ⟨by decide, by decide, by decide,
   sampleTiny.set 0 { mkSlot 1 procstate.RUNNABLE 39 0 with state := procstate.RUNNING },
   { mkSlot 1 procstate.RUNNABLE 39 0 with state := procstate.RUNNING },
   by decide, by decide, by decide, by decide⟩

/-- C3 (amended): on a table of `NPROC` slots with nice values in `0..39` in
which the scan selects the slot `p` at index `i`, the dispatch step succeeds and
the timeslice it stores is at least 1 exactly when the total weight of the ready
set is at most `10000 * weight[p.nice]`. -/
theorem timeslice_ge_one_iff (t : List proc) (i : Nat) (p : proc)
    (hlen : t.length = NPROC) (hnice : niceInRange t)
    (hsel : (scan t).min_vrun_p = some i) (hp : t[i]? = some p) :
    ∃ t' p', schedulerStep t = some t' ∧ t'[i]? = some p' ∧
      (1 ≤ p'.timeslice ↔ totalWeight t ≤ 10000 * weight_at p.nice) := by
  obtain ⟨-, -, hilt, -, hWpos, -, hstep⟩ :=
    schedulerStep_of_selected t i p hlen hnice hsel hp
  refine ⟨_, { p with timeslice := 10000 * weight_at p.nice / totalWeight t,
                      state := procstate.RUNNING }, hstep, by simp [hilt], ?_⟩
  show 1 ≤ 10000 * weight_at p.nice / totalWeight t ↔ _
  rw [Nat.le_div_iff_mul_le hWpos, Nat.one_mul]

/-- Witness of C3 (amended) on `sampleTies`, where the scan selects index 1. -/
theorem timeslice_ge_one_iff_witness :
    (sampleTies.length = NPROC ∧ niceInRange sampleTies ∧
      (scan sampleTies).min_vrun_p = some 1 ∧
      sampleTies[1]? = some (mkSlot 2 procstate.RUNNABLE 10 300)) ∧
    ∃ t' p', schedulerStep sampleTies = some t' ∧ t'[1]? = some p' ∧
      (1 ≤ p'.timeslice ↔
        totalWeight sampleTies ≤ 10000 * weight_at (mkSlot 2 procstate.RUNNABLE 10 300).nice) :=
  ⟨⟨by decide, by decide, by decide, by decide⟩,
   timeslice_ge_one_iff sampleTies 1 (mkSlot 2 procstate.RUNNABLE 10 300)
     (by decide) (by decide) (by decide) (by decide)⟩

/-- C4: on a table of 32-bit values with at least one RUNNABLE slot,
`wakeup(c)` sets the `vruntime` of every slot that was SLEEPING on `c` to
`(M - 1000*1024/weight[nice]) mod 2^32`, with truncating division, the slot's
own nice value, and `M` the minimum `vruntime` over the slots that were RUNNABLE
before the call, the same `M` for every slot woken; a slot of nice 20 gets
`(M - 1000) mod 2^32`. -/
theorem wakeup_sets_vruntime_behind_min (t : List proc) (c : Nat)
    (hwt : tableWellTyped t) (hex : ∃ q ∈ t, q.runnable) :
    ∃ M, isMinVruntime t M ∧
      ∀ (i : Nat) (p : proc), t[i]? = some p → p.sleepingOn c →
        ∃ p' : proc, (wakeup t c)[i]? = some p' ∧
          (p'.vruntime : Int) =
            ((M : Int) - ((1000 * 1024 / weight_at p.nice : Nat) : Int)) % 2 ^ 32 ∧
          (p.nice = 20 → (p'.vruntime : Int) = ((M : Int) - 1000) % 2 ^ 32) := by
  refine ⟨wakeupMinVruntime UINT32_MAX t, wakeupMinVruntime_isMin t hwt hex, ?_⟩
  intro i p hp hs
  refine ⟨wakeBehind (wakeupMinVruntime UINT32_MAX t) c p, ?_, ?_, ?_⟩
  · rw [wakeup_of_runnable t c hex, List.getElem?_map, hp]
    rfl
  · have hd : 1000 * 1024 / weight_at p.nice ≤ 1024000 := Nat.div_le_self _ _
    have hv : (wakeBehind (wakeupMinVruntime UINT32_MAX t) c p).vruntime =
        usub32 (wakeupMinVruntime UINT32_MAX t) (1000 * 1024 / weight_at p.nice) := by
      rw [wakeBehind_of_sleeping _ _ _ hs, wakeDelta_eq]
    rw [hv]
    exact usub32_cast _ _ hd
  · intro h20
    have hv : (wakeBehind (wakeupMinVruntime UINT32_MAX t) c p).vruntime =
        usub32 (wakeupMinVruntime UINT32_MAX t) 1000 := by
      rw [wakeBehind_of_sleeping _ _ _ hs, wakeDelta_eq, h20]
      rfl
    rw [hv, usub32_cast _ _ (by norm_num)]
    rfl

/-- Witness of C4 on `sampleWake` and channel 7. -/
theorem wakeup_sets_vruntime_behind_min_witness :
    (tableWellTyped sampleWake ∧ ∃ q ∈ sampleWake, q.runnable) ∧
    ∃ M, isMinVruntime sampleWake M ∧
      ∀ (i : Nat) (p : proc), sampleWake[i]? = some p → p.sleepingOn 7 →
        ∃ p' : proc, (wakeup sampleWake 7)[i]? = some p' ∧
          (p'.vruntime : Int) =
            ((M : Int) - ((1000 * 1024 / weight_at p.nice : Nat) : Int)) % 2 ^ 32 ∧
          (p.nice = 20 → (p'.vruntime : Int) = ((M : Int) - 1000) % 2 ^ 32) :=
  ⟨⟨by decide, by decide⟩,
   wakeup_sets_vruntime_behind_min sampleWake 7 (by decide) (by decide)⟩

/-- C5: on a table without a RUNNABLE slot, after `wakeup(c)` every slot that
was SLEEPING on `c` has `vruntime = 0` and is RUNNABLE. -/
theorem wakeup_idle_resets_vruntime (t : List proc) (c : Nat)
    (hno : ∀ q ∈ t, ¬ q.runnable) :
    ∀ (i : Nat) (p : proc), t[i]? = some p → p.sleepingOn c →
      ∃ p' : proc, (wakeup t c)[i]? = some p' ∧ p'.vruntime = 0 ∧ p'.runnable := by
  intro i p hp hs
  refine ⟨wakeZero c p, ?_, ?_, ?_⟩
  · rw [wakeup_of_idle t c hno, List.getElem?_map, hp]
    rfl
  · rw [wakeZero_of_sleeping c p hs]
  · rw [wakeZero_of_sleeping c p hs]
    rfl

/-- Witness of C5 on `sampleIdle` and channel 7. -/
theorem wakeup_idle_resets_vruntime_witness :
    (∀ q ∈ sampleIdle, ¬ q.runnable) ∧
    ∀ (i : Nat) (p : proc), sampleIdle[i]? = some p → p.sleepingOn 7 →
      ∃ p' : proc, (wakeup sampleIdle 7)[i]? = some p' ∧ p'.vruntime = 0 ∧ p'.runnable :=
  ⟨by decide, wakeup_idle_resets_vruntime sampleIdle 7 (by decide)⟩

/-- Counterexample to C6 on `sampleWrap` and channel 7: the RUNNABLE process has
`vruntime` 500, the sleeper of nice 20 is woken with `500 - 1000` wrapped to
`4294966796`, and the next scan selects index 0, the process that was already
RUNNABLE, not the woken one. -/
theorem wake_runs_next_counterexample :
    niceInRange sampleWrap ∧ (∃ q ∈ sampleWrap, q.runnable) ∧
    (∃ q ∈ sampleWrap, q.sleepingOn 7) ∧
    (wakeup sampleWrap 7)[1]? =
      some { mkSleeper 2 20 0 7 with vruntime := 4294966796, state := procstate.RUNNABLE } ∧
    (scan (wakeup sampleWrap 7)).min_vrun_p = some 0 ∧
    sampleWrap[0]? = some (mkSlot 1 procstate.RUNNABLE 20 500) ∧
    ¬ (mkSlot 1 procstate.RUNNABLE 20 500).sleepingOn 7 := by
  decide

/-- C6 (amended): on a table of 32-bit values with nice values in `0..39` whose
RUNNABLE slots have the minimum `vruntime` `M`, the scan that follows
`wakeup(c)` selects a slot woken by that call exactly when some slot SLEEPING on
`c` has `1000*1024/weight[nice] ≤ M`, that is, when the subtraction does not
wrap below zero for at least one woken slot; and when some slot is SLEEPING on
`c` and the subtraction wraps for every such slot, that scan selects a slot that
was already RUNNABLE, which `wakeup(c)` left unchanged. -/
theorem wake_runs_next_iff (t : List proc) (c M : Nat)
    (hwt : tableWellTyped t) (hnice : niceInRange t) (hM : isMinVruntime t M) :
    ((∃ (i : Nat) (p : proc),
        (scan (wakeup t c)).min_vrun_p = some i ∧ t[i]? = some p ∧ p.sleepingOn c) ↔
      ∃ q ∈ t, q.sleepingOn c ∧ 1000 * 1024 / weight_at q.nice ≤ M) ∧
    ((∃ q ∈ t, q.sleepingOn c) →
      (∀ q ∈ t, q.sleepingOn c → M < 1000 * 1024 / weight_at q.nice) →
      ∃ (i : Nat) (p : proc),
        (scan (wakeup t c)).min_vrun_p = some i ∧ t[i]? = some p ∧ p.runnable ∧
          (wakeup t c)[i]? = some p) := by
  have hex : ∃ q ∈ t, q.runnable := by
    obtain ⟨⟨q, hq, hqr, _⟩, _⟩ := hM
    exact ⟨q, hq, hqr⟩
  have hM0 : wakeupMinVruntime UINT32_MAX t = M :=
    isMinVruntime_unique t _ _ (wakeupMinVruntime_isMin t hwt hex) hM
  have hw : wakeup t c = t.map (wakeBehind M c) := by
    rw [wakeup_of_runnable t c hex, hM0]
  obtain ⟨⟨q0, hq0, hq0r, hq0v⟩, hMle⟩ := hM
  have hMlt : M < 2 ^ 32 := by
    have := (hwt q0 hq0).2.1
    omega
  have hiff : (∃ (i : Nat) (p : proc),
        (scan (wakeup t c)).min_vrun_p = some i ∧ t[i]? = some p ∧ p.sleepingOn c) ↔
      ∃ q ∈ t, q.sleepingOn c ∧ 1000 * 1024 / weight_at q.nice ≤ M := by
    constructor
    · rintro ⟨i, p, hsel, hp, hs⟩
      refine ⟨p, List.getElem?_mem hp, hs, ?_⟩
      obtain ⟨p', hp', -, hmin⟩ := scan_selected_spec _ i hsel
      rw [hw, List.getElem?_map, hp] at hp'
      simp only [Option.map_some', Option.some.injEq] at hp'
      obtain ⟨j0, hj0⟩ := List.mem_iff_getElem?.mp hq0
      have hq0ns : ¬ q0.sleepingOn c := by
        intro h
        have h1 : q0.state = procstate.SLEEPING := h.1
        have h2 : q0.state = procstate.RUNNABLE := hq0r
        rw [h1] at h2
        cases h2
      have hj0' : (wakeup t c)[j0]? = some q0 := by
        rw [hw, List.getElem?_map, hj0]
        simp only [Option.map_some']
        rw [wakeBehind_of_not_sleeping M c q0 hq0ns]
      have hle := (hmin j0 q0 hj0' hq0r).1
      rw [← hp', wakeBehind_of_sleeping M c p hs, hq0v] at hle
      simp only at hle
      rw [wakeDelta_eq] at hle
      by_contra hc
      have hd : 1000 * 1024 / weight_at p.nice ≤ 1024000 := Nat.div_le_self _ _
      rw [usub32_wrap M _ hMlt (by omega) (by omega)] at hle
      omega
    · rintro ⟨q, hq, hqs, hqd⟩
      have hdq := (wakeDelta_bounds q.nice (hnice q hq).1 (hnice q hq).2).1
      rw [wakeDelta_eq] at hdq
      have hq'mem : wakeBehind M c q ∈ wakeup t c := by
        rw [hw]
        exact List.mem_map_of_mem _ hq
      have hq'r : (wakeBehind M c q).runnable := by
        rw [wakeBehind_of_sleeping M c q hqs]
        rfl
      have hq'v : (wakeBehind M c q).vruntime = M - 1000 * 1024 / weight_at q.nice := by
        rw [wakeBehind_of_sleeping M c q hqs]
        simp only
        rw [wakeDelta_eq, usub32_no_wrap M _ hMlt hqd]
      cases hsel : (scan (wakeup t c)).min_vrun_p with
      | none =>
        have := scan_none_spec _ hsel _ hq'mem hq'r
        rw [hq'v] at this
        simp only [UINT32_MAX] at this
        omega
      | some i =>
        obtain ⟨p', hp', hp'r, hmin⟩ := scan_selected_spec _ i hsel
        obtain ⟨j, hj⟩ := List.mem_iff_getElem?.mp hq'mem
        have hle := (hmin j _ hj hq'r).1
        rw [hq'v] at hle
        rw [hw, List.getElem?_map] at hp'
        cases hp : t[i]? with
        | none => rw [hp] at hp'; cases hp'
        | some p =>
          rw [hp] at hp'
          simp only [Option.map_some', Option.some.injEq] at hp'
          refine ⟨i, p, rfl, hp, ?_⟩
          by_contra hns
          rw [wakeBehind_of_not_sleeping M c p hns] at hp'
          subst hp'
          have := hMle p (List.getElem?_mem hp) hp'r
          omega
  refine ⟨hiff, ?_⟩
  rintro ⟨qs, hqs, hqss⟩ hall
  have hdq := (wakeDelta_bounds qs.nice (hnice qs hqs).1 (hnice qs hqs).2).2
  rw [wakeDelta_eq] at hdq
  have hMsmall := hall qs hqs hqss
  have hq0ns : ¬ q0.sleepingOn c := by
    intro h
    have h1 : q0.state = procstate.SLEEPING := h.1
    have h2 : q0.state = procstate.RUNNABLE := hq0r
    rw [h1] at h2
    cases h2
  have hq0mem : q0 ∈ wakeup t c := by
    rw [hw]
    have := List.mem_map_of_mem (wakeBehind M c) hq0
    rwa [wakeBehind_of_not_sleeping M c q0 hq0ns] at this
  cases hsel : (scan (wakeup t c)).min_vrun_p with
  | none =>
    have := scan_none_spec _ hsel q0 hq0mem hq0r
    simp only [UINT32_MAX] at this
    omega
  | some i =>
    obtain ⟨p', hp', hp'r, -⟩ := scan_selected_spec _ i hsel
    have hp'' := hp'
    rw [hw, List.getElem?_map] at hp''
    cases hp : t[i]? with
    | none => rw [hp] at hp''; cases hp''
    | some p =>
      rw [hp] at hp''
      simp only [Option.map_some', Option.some.injEq] at hp''
      have hns : ¬ p.sleepingOn c := by
        intro hps
        obtain ⟨q, hq, hqs2, hqd⟩ := hiff.mp ⟨i, p, hsel, hp, hps⟩
        have := hall q hq hqs2
        omega
      rw [wakeBehind_of_not_sleeping M c p hns] at hp''
      subst hp''
      exact ⟨i, p, rfl, hp, hp'r, hp'⟩

/-- Witness of C6 (amended): on `sampleWake`, where the minimum is 5000, the
subtraction does not wrap and a woken slot is selected; on `sampleWrap`, where
the minimum is 500 and the only sleeper on channel 7 has nice 20, it wraps and
the slot that was already RUNNABLE is selected. -/
theorem wake_runs_next_iff_witness :
    ((tableWellTyped sampleWake ∧ niceInRange sampleWake ∧ isMinVruntime sampleWake 5000) ∧
      ((∃ (i : Nat) (p : proc),
          (scan (wakeup sampleWake 7)).min_vrun_p = some i ∧ sampleWake[i]? = some p ∧
            p.sleepingOn 7) ↔
        ∃ q ∈ sampleWake, q.sleepingOn 7 ∧ 1000 * 1024 / weight_at q.nice ≤ 5000)) ∧
    ((tableWellTyped sampleWrap ∧ niceInRange sampleWrap ∧ isMinVruntime sampleWrap 500 ∧
        (∃ q ∈ sampleWrap, q.sleepingOn 7) ∧
        ∀ q ∈ sampleWrap, q.sleepingOn 7 → 500 < 1000 * 1024 / weight_at q.nice) ∧
      ∃ (i : Nat) (p : proc),
        (scan (wakeup sampleWrap 7)).min_vrun_p = some i ∧ sampleWrap[i]? = some p ∧
          p.runnable ∧ (wakeup sampleWrap 7)[i]? = some p) :=
  ⟨⟨⟨by decide, by decide, by unfold isMinVruntime; decide⟩,
    (wake_runs_next_iff sampleWake 7 5000 (by decide) (by decide)
      (by unfold isMinVruntime; decide)).1⟩,
   ⟨⟨by decide, by decide, by unfold isMinVruntime; decide, by decide, by decide⟩,
    (wake_runs_next_iff sampleWrap 7 500 (by decide) (by decide)
      (by unfold isMinVruntime; decide)).2 (by decide) (by decide)⟩⟩

/-- C7: `wakeup(c)` keeps the number of slots; a slot that was SLEEPING on `c`
becomes RUNNABLE and keeps its pid, nice, runtime, timeslice, chan and killed
flag (only state and vruntime change); every other slot is unchanged; and
afterwards no slot is SLEEPING on `c`. -/
theorem wakeup_frame (t : List proc) (c : Nat) :
    (wakeup t c).length = t.length ∧
    (∀ (i : Nat) (p : proc), t[i]? = some p →
      ∃ p' : proc, (wakeup t c)[i]? = some p' ∧
        (p.sleepingOn c →
          p' = { p with state := procstate.RUNNABLE, vruntime := p'.vruntime }) ∧
        (¬ p.sleepingOn c → p' = p)) ∧
    ∀ q ∈ wakeup t c, ¬ q.sleepingOn c := by
  have key : ∃ f : proc → proc, wakeup t c = t.map f ∧
      (∀ p : proc, p.sleepingOn c →
        f p = { p with state := procstate.RUNNABLE, vruntime := (f p).vruntime }) ∧
      (∀ p : proc, ¬ p.sleepingOn c → f p = p) := by
    by_cases hex : ∃ q ∈ t, q.runnable
    · refine ⟨wakeBehind (wakeupMinVruntime UINT32_MAX t) c, wakeup_of_runnable t c hex, ?_, ?_⟩
      · intro p hs
        rw [wakeBehind_of_sleeping _ _ _ hs]
      · intro p hs
        exact wakeBehind_of_not_sleeping _ _ _ hs
    · refine ⟨wakeZero c, wakeup_of_idle t c (fun q hq hqr => hex ⟨q, hq, hqr⟩), ?_, ?_⟩
      · intro p hs
        rw [wakeZero_of_sleeping _ _ hs]
      · intro p hs
        exact wakeZero_of_not_sleeping _ _ hs
  obtain ⟨f, hf, hfs, hfn⟩ := key
  refine ⟨by rw [hf, List.length_map], ?_, ?_⟩
  · intro i p hp
    refine ⟨f p, ?_, hfs p, hfn p⟩
    rw [hf, List.getElem?_map, hp]
    rfl
  · intro q hq
    rw [hf] at hq
    obtain ⟨p, -, rfl⟩ := List.mem_map.mp hq
    by_cases hs : p.sleepingOn c
    · rw [hfs p hs]
      intro h
      exact absurd h.1 (by simp)
    · rw [hfn p hs]
      exact hs

/-- C8: if `setnice(pid, v)` returns 0, then `getnice(pid)` on the resulting
table returns `v`. -/
theorem setnice_getnice_roundtrip (t : List proc) (pid v : Int)
    (h : (setnice t pid v).1 = 0) : (getnice (setnice t pid v).2 pid).1 = v := by
  by_cases hv : v < 0 ∨ v > 39
  · rw [setnice_of_invalid t pid v hv] at h
    cases h
  · rw [setnice_of_valid t pid v hv] at h ⊢
    by_cases hex : ∃ q ∈ t, q.pid = pid
    · exact (setniceLoop_of_present pid v t hex).2
    · rw [setniceLoop_of_absent pid v t (fun q hq hqp => hex ⟨q, hq, hqp⟩)] at h
      cases h

/-- Witness of C8 on `samplePids`: `setnice(4, 12)` returns 0 and `getnice(4)`
then returns 12. -/
theorem setnice_getnice_roundtrip_witness :
    (setnice samplePids 4 12).1 = 0 ∧ (getnice (setnice samplePids 4 12).2 4).1 = 12 :=
  ⟨by decide, setnice_getnice_roundtrip samplePids 4 12 (by decide)⟩

/-- C9: `setnice(pid, v)` returns -1 exactly when `v` is outside `0..39` or no
slot has the pid, and returns 0 otherwise; when it returns -1 the table is
unchanged; `setnice(pid, 40)` and `setnice(pid, -1)` return -1. -/
theorem setnice_fails_iff (t : List proc) (pid v : Int) :
    ((setnice t pid v).1 = -1 ↔ (v < 0 ∨ 39 < v ∨ ∀ q ∈ t, q.pid ≠ pid)) ∧
    ((setnice t pid v).1 ≠ -1 → (setnice t pid v).1 = 0) ∧
    ((setnice t pid v).1 = -1 → (setnice t pid v).2 = t) ∧
    (setnice t pid 40).1 = -1 ∧ (setnice t pid (-1)).1 = -1 := by
  have h40 : (setnice t pid 40).1 = -1 := by
    rw [setnice_of_invalid t pid 40 (by decide)]
  have hneg : (setnice t pid (-1)).1 = -1 := by
    rw [setnice_of_invalid t pid (-1) (by decide)]
  by_cases hv : v < 0 ∨ v > 39
  · rw [setnice_of_invalid t pid v hv]
    refine ⟨⟨fun _ => ?_, fun _ => rfl⟩, fun h => absurd rfl h, fun _ => rfl, h40, hneg⟩
    rcases hv with hv | hv
    · exact Or.inl hv
    · exact Or.inr (Or.inl hv)
  · rw [setnice_of_valid t pid v hv]
    have hv0 : ¬ v < 0 := fun h => hv (Or.inl h)
    have hv39 : ¬ 39 < v := fun h => hv (Or.inr h)
    by_cases hex : ∃ q ∈ t, q.pid = pid
    · have h0 := (setniceLoop_of_present pid v t hex).1
      rw [h0]
      refine ⟨⟨fun h => (by cases h), fun h => ?_⟩, fun _ => rfl, fun h => (by cases h), h40, hneg⟩
      rcases h with h | h | h
      · exact absurd h hv0
      · exact absurd h hv39
      · obtain ⟨q, hq, hqp⟩ := hex
        exact absurd hqp (h q hq)
    · have hall : ∀ q ∈ t, q.pid ≠ pid := fun q hq hqp => hex ⟨q, hq, hqp⟩
      rw [setniceLoop_of_absent pid v t hall]
      exact ⟨⟨fun _ => Or.inr (Or.inr hall), fun _ => rfl⟩, fun h => absurd rfl h,
        fun _ => rfl, h40, hneg⟩

/-- C10: on a table with nice values in `0..39`, `getnice(pid)` returns the nice
value of the first slot in table order whose pid is `pid`, returns -1 exactly
when no slot has that pid, and leaves the table unchanged. -/
theorem getnice_first_match (t : List proc) (pid : Int) (hnice : niceInRange t) :
    (∀ (i : Nat) (p : proc), t[i]? = some p → p.pid = pid →
      (∀ (j : Nat) (q : proc), t[j]? = some q → j < i → q.pid ≠ pid) →
      (getnice t pid).1 = p.nice) ∧
    ((getnice t pid).1 = -1 ↔ ∀ q ∈ t, q.pid ≠ pid) ∧
    (getnice t pid).2 = t := by
  refine ⟨fun i p hp hpid hfirst => getniceLoop_of_first pid t i p hp hpid hfirst, ?_, rfl⟩
  constructor
  · intro h q hq hqp
    obtain ⟨r, hr, -, hrn⟩ := getniceLoop_of_present pid t ⟨q, hq, hqp⟩
    have hr0 := (hnice r hr).1
    have h1 : getniceLoop pid t = -1 := h
    rw [hrn] at h1
    omega
  · intro h
    exact getniceLoop_of_absent pid t h

/-- Witness of C10 on `samplePids`: `getnice(4)` returns 7, the nice value of
the first of the two slots with pid 4. -/
theorem getnice_first_match_witness :
    niceInRange samplePids ∧ (getnice samplePids 4).1 = 7 ∧
    ((getnice samplePids 4).1 = -1 ↔ ∀ q ∈ samplePids, q.pid ≠ 4) ∧
    (getnice samplePids 4).2 = samplePids :=
  ⟨by decide,
   (getnice_first_match samplePids 4 (by decide)).1 1 (mkSlot 4 procstate.RUNNING 7 10)
     (by decide) (by decide)
     (fun j q hq hj => by
        have hj0 : j = 0 := by omega
        subst hj0
        have hq0 : q = mkSlot 3 procstate.RUNNABLE 20 0 := by
          have h0 : samplePids[0]? = some (mkSlot 3 procstate.RUNNABLE 20 0) := by decide
          rw [h0] at hq
          exact (Option.some.inj hq).symm
        subst hq0
        decide),
   (getnice_first_match samplePids 4 (by decide)).2.1,
   (getnice_first_match samplePids 4 (by decide)).2.2⟩

/-- C11: the predicate "every slot has nice in `0..39`" holds for the
zero-initialised table and is preserved by `allocproc`, `userinit`, `fork`,
`setnice` (for every argument), `wakeup`, `kill`, `yield`, `sleep` (both before
and after the switch) and the dispatch step of `scheduler`; hence it holds in
every reachable state. -/
theorem nice_invariant :
    niceInRange bootKernel.ptable ∧
    (∀ (k : Kernel) (kalloc_ok : Bool),
      niceInRange k.ptable → niceInRange (allocproc k kalloc_ok).2.ptable) ∧
    (∀ (k k' : Kernel) (kalloc_ok setupkvm_ok : Bool),
      niceInRange k.ptable → userinit k kalloc_ok setupkvm_ok = some k' →
      niceInRange k'.ptable) ∧
    (∀ (k k' : Kernel) (cur : Nat) (kalloc_ok copyuvm_ok : Bool) (r : Int),
      niceInRange k.ptable → fork k cur kalloc_ok copyuvm_ok = some (r, k') →
      niceInRange k'.ptable) ∧
    (∀ (t : List proc) (pid value : Int),
      niceInRange t → niceInRange (setnice t pid value).2) ∧
    (∀ (t : List proc) (chan : Nat), niceInRange t → niceInRange (wakeup t chan)) ∧
    (∀ (t : List proc) (pid : Int), niceInRange t → niceInRange (kill t pid).2) ∧
    (∀ (t t' : List proc) (cur : Nat),
      niceInRange t → yield t cur = some t' → niceInRange t') ∧
    (∀ (t t' : List proc) (cur chan lk : Nat),
      niceInRange t → sleep t cur chan lk = some t' → niceInRange t') ∧
    (∀ (t t' : List proc) (cur : Nat),
      niceInRange t → sleepTidy t cur = some t' → niceInRange t') ∧
    (∀ (t t' : List proc),
      niceInRange t → schedulerStep t = some t' → niceInRange t') ∧
    (∀ k : Kernel, Reachable k → niceInRange k.ptable) :=
  ⟨niceInRange_boot,
   fun k ok h => niceInRange_allocproc k ok h,
   fun k k' ok1 ok2 h hk => niceInRange_userinit k k' ok1 ok2 h hk,
   fun k k' cur ok1 ok2 r h hk => niceInRange_fork k k' cur ok1 ok2 r h hk,
   fun t pid value h => niceInRange_setnice t pid value h,
   fun t chan h => niceInRange_wakeup t chan h,
   fun t pid h => niceInRange_kill t pid h,
   fun t t' cur h hy => niceInRange_yield t t' cur h hy,
   fun t t' cur chan lk h hs => niceInRange_sleep t t' cur chan lk h hs,
   fun t t' cur h hs => niceInRange_sleepTidy t t' cur h hs,
   fun t t' h hs => niceInRange_schedulerStep t t' h hs,
   fun k hk => niceInRange_of_reachable k hk⟩

/-- C12: when the table has an UNUSED slot, the caller in slot `cur` is RUNNING
and both allocations succeed, `fork` succeeds: the first UNUSED slot becomes the
child, which is RUNNABLE with pid `nextpid` and with the nice, runtime and
vruntime of the parent at the time of the call (not the 20/0/0 written by
`allocproc`); `fork` returns the child's pid; and the parent's slot is
unchanged. -/
theorem fork_child_inherits (k : Kernel) (cur : Nat) (parent : proc)
    (hpar : k.ptable[cur]? = some parent) (hrun : parent.state = procstate.RUNNING)
    (hun : ∃ q ∈ k.ptable, q.state = procstate.UNUSED) :
    ∃ (i : Nat) (child : proc) (k' : Kernel),
      fork k cur true true = some (child.pid, k') ∧ findUnused k.ptable = some i ∧
      k'.ptable[i]? = some child ∧ child.state = procstate.RUNNABLE ∧
      child.pid = k.nextpid ∧ child.nice = parent.nice ∧
      child.runtime = parent.runtime ∧ child.vruntime = parent.vruntime ∧
      k'.ptable[cur]? = some parent := by
  obtain ⟨i, hf⟩ := findUnused_of_mem k.ptable hun
  obtain ⟨p, hp, hpu, -⟩ := findUnused_some k.ptable i hf
  have hilt := getElem?_lt_length k.ptable i p hp
  have hne : i ≠ cur := by
    intro h
    subst h
    rw [hp] at hpar
    cases hpar
    rw [hpu] at hrun
    cases hrun
  have halloc := (allocproc_of_found k i p hf hp).1
  have hnp : (k.ptable.set i (allocInit k.nextpid p))[i]? = some (allocInit k.nextpid p) := by
    simp [hilt]
  have hcp : (k.ptable.set i (allocInit k.nextpid p))[cur]? = some parent := by
    rw [List.getElem?_set_ne hne]
    exact hpar
  refine ⟨i, { allocInit k.nextpid p with
                 name := parent.name, nice := parent.nice, runtime := parent.runtime,
                 vruntime := parent.vruntime, state := procstate.RUNNABLE },
    { ptable := (k.ptable.set i (allocInit k.nextpid p)).set i
        ({ allocInit k.nextpid p with
             name := parent.name, nice := parent.nice, runtime := parent.runtime,
             vruntime := parent.vruntime, state := procstate.RUNNABLE }),
      nextpid := wrapInt32 (k.nextpid + 1) }, ?_, hf, ?_, rfl, rfl, rfl, rfl, rfl, ?_⟩
  · unfold fork
    rw [halloc]
    simp only [hnp, hcp, if_true]
  · simp [hilt]
  · simp only
    rw [List.getElem?_set_ne hne]
    exact hcp

/-- Witness of C12 on `sampleForkKernel`, where the parent is in slot 1. -/
theorem fork_child_inherits_witness :
    (sampleForkKernel.ptable[1]? =
        some ({ mkSlot 2 procstate.RUNNING 7 4500 with runtime := 321,
                                                       name := String.toList "sh" }) ∧
      (∃ q ∈ sampleForkKernel.ptable, q.state = procstate.UNUSED)) ∧
    ∃ (i : Nat) (child : proc) (k' : Kernel),
      fork sampleForkKernel 1 true true = some (child.pid, k') ∧
      findUnused sampleForkKernel.ptable = some i ∧
      k'.ptable[i]? = some child ∧ child.state = procstate.RUNNABLE ∧
      child.pid = sampleForkKernel.nextpid ∧ child.nice = 7 ∧
      child.runtime = 321 ∧ child.vruntime = 4500 ∧
      k'.ptable[1]? =
        some ({ mkSlot 2 procstate.RUNNING 7 4500 with runtime := 321,
                                                       name := String.toList "sh" }) :=
  ⟨⟨by decide, by decide⟩,
   fork_child_inherits sampleForkKernel 1
     ({ mkSlot 2 procstate.RUNNING 7 4500 with runtime := 321, name := String.toList "sh" })
     (by decide) (by decide) (by decide)⟩

/-- Counterexample to C13.  On `sampleKernel` when `kalloc` fails: the table has
an UNUSED slot (slot 4 is the first), yet `allocproc` returns the null pointer,
the slot is UNUSED again (not EMBRYO) with pid 6 and nice 20 written to it, and
`nextpid` went from 6 to 7.  On `sampleLastPid`, where `nextpid` is the largest
`int`, `allocproc` succeeds and `nextpid` becomes `-2147483648`, not
`2147483647 + 1`. -/
theorem allocproc_counterexample :
    (∃ q ∈ sampleKernel.ptable, q.state = procstate.UNUSED) ∧
    findUnused sampleKernel.ptable = some 4 ∧
    (allocproc sampleKernel false).1 = none ∧
    (allocproc sampleKernel false).2.ptable[4]? =
      some ({ unusedSlot with pid := 6, nice := 20 }) ∧
    ({ unusedSlot with pid := 6, nice := 20 } : proc).state ≠ procstate.EMBRYO ∧
    (allocproc sampleKernel false).2.ptable ≠ sampleKernel.ptable ∧
    (allocproc sampleKernel false).2.nextpid = 7 ∧
    (allocproc sampleLastPid true).1 = some 4 ∧
    (allocproc sampleLastPid true).2.ptable[4]? =
      some ({ unusedSlot with state := procstate.EMBRYO, pid := 2147483647, nice := 20 }) ∧
    (allocproc sampleLastPid true).2.nextpid = -2147483648 ∧
    (allocproc sampleLastPid true).2.nextpid ≠ sampleLastPid.nextpid + 1 := by
  decide

/-- C13 (amended): if no slot is UNUSED, `allocproc` returns the null pointer
and changes neither the table nor `nextpid`.  Otherwise, with `p` the first
UNUSED slot in table order: when `kalloc` succeeds, `allocproc` returns that
slot, whose state is EMBRYO, pid is the old `nextpid`, nice is 20, runtime and
vruntime are 0, `nextpid` is incremented as an `int`, and every other slot is
unchanged; when `kalloc` fails, `allocproc` returns the null pointer after the
same writes and the increment of `nextpid`, with the state of the slot set back
to UNUSED.  The incremented `nextpid` is `nextpid + 1` for an `int` below
`2147483647`, and `-2147483648` for `2147483647`. -/
theorem allocproc_spec (k : Kernel) :
    ((∀ q ∈ k.ptable, q.state ≠ procstate.UNUSED) →
      ∀ kalloc_ok : Bool, allocproc k kalloc_ok = (none, k)) ∧
    (∀ (i : Nat) (p : proc), k.ptable[i]? = some p → p.state = procstate.UNUSED →
      (∀ (j : Nat) (q : proc), k.ptable[j]? = some q → j < i →
        q.state ≠ procstate.UNUSED) →
      allocproc k true =
        (some i,
         { ptable := k.ptable.set i
             ({ p with state := procstate.EMBRYO, pid := k.nextpid, nice := 20,
                       runtime := 0, vruntime := 0 }),
           nextpid := wrapInt32 (k.nextpid + 1) }) ∧
      allocproc k false =
        (none,
         { ptable := k.ptable.set i
             ({ p with state := procstate.UNUSED, pid := k.nextpid, nice := 20,
                       runtime := 0, vruntime := 0 }),
           nextpid := wrapInt32 (k.nextpid + 1) })) ∧
    (-2147483648 ≤ k.nextpid → k.nextpid < 2147483647 →
      wrapInt32 (k.nextpid + 1) = k.nextpid + 1) ∧
    (k.nextpid = 2147483647 → wrapInt32 (k.nextpid + 1) = -2147483648) := by
  refine ⟨?_, ?_, ?_, ?_⟩
  · intro hall ok
    cases hf : findUnused k.ptable with
    | none => exact allocproc_of_full k ok hf
    | some i =>
      obtain ⟨p, hp, hpu, -⟩ := findUnused_some k.ptable i hf
      exact absurd hpu (hall p (List.getElem?_mem hp))
  · intro i p hp hpu hfirst
    have hf := findUnused_unique k.ptable i p hp hpu hfirst
    exact allocproc_of_found k i p hf hp
  · intro hlo hhi
    unfold wrapInt32
    omega
  · intro hmax
    rw [hmax]
    decide

/-- Counterexample to C14 on `sampleIdle`, whose slot 1 is RUNNING: `yield`
leaves the process RUNNABLE with the runtime and the vruntime it had; for no
`D ≥ 1` is the runtime increased by `D` or the vruntime by
`D*1024/weight[nice]`. -/
theorem yield_accounting_counterexample :
    sampleIdle[1]? = some (mkSlot 2 procstate.RUNNING 20 900) ∧
    yield sampleIdle 1 = some (sampleIdle.set 1 (mkSlot 2 procstate.RUNNABLE 20 900)) ∧
    (mkSlot 2 procstate.RUNNABLE 20 900).runtime = (mkSlot 2 procstate.RUNNING 20 900).runtime ∧
    (mkSlot 2 procstate.RUNNABLE 20 900).vruntime =
      (mkSlot 2 procstate.RUNNING 20 900).vruntime ∧
    ∀ D : Nat, 1 ≤ D →
      (mkSlot 2 procstate.RUNNABLE 20 900).runtime ≠
        (mkSlot 2 procstate.RUNNING 20 900).runtime + D ∧
      (mkSlot 2 procstate.RUNNABLE 20 900).vruntime ≠
        (mkSlot 2 procstate.RUNNING 20 900).vruntime +
          D * 1024 / weight_at (mkSlot 2 procstate.RUNNING 20 900).nice := by
  refine ⟨by decide, by decide, rfl, rfl, ?_⟩
  intro D hD
  have hw : weight_at (mkSlot 2 procstate.RUNNING 20 900).nice = 1024 := by decide
  rw [hw, Nat.mul_div_cancel D (by norm_num)]
  simp only [mkSlot]
  omega

/-- C14 (amended): for the process `p` in slot `cur`, `yield` sets the state of
that slot to RUNNABLE and changes nothing else: runtime, vruntime and every
other field of the slot, and every other slot, are as before.  No accounting is
applied by `yield`: for no `D ≥ 1` is the runtime increased by `D`, and the
vruntime is not increased by `D*1024/weight[nice]` when that amount is
positive. -/
theorem yield_no_accounting (t : List proc) (cur : Nat) (p : proc)
    (hp : t[cur]? = some p) :
    ∃ (t' : List proc) (p' : proc), yield t cur = some t' ∧ t'[cur]? = some p' ∧
      p' = { p with state := procstate.RUNNABLE } ∧
      p'.runtime = p.runtime ∧ p'.vruntime = p.vruntime ∧
      t'.length = t.length ∧ (∀ j : Nat, j ≠ cur → t'[j]? = t[j]?) ∧
      (∀ D : Nat, 1 ≤ D → p'.runtime ≠ p.runtime + D) ∧
      (∀ D : Nat, 1 ≤ D * 1024 / weight_at p.nice →
        p'.vruntime ≠ p.vruntime + D * 1024 / weight_at p.nice) := by
  have hlt := getElem?_lt_length t cur p hp
  refine ⟨t.set cur { p with state := procstate.RUNNABLE },
    { p with state := procstate.RUNNABLE }, ?_, by simp [hlt], rfl, rfl, rfl, by simp,
    ?_, ?_, ?_⟩
  · unfold yield
    rw [hp]
  · intro j hj
    exact List.getElem?_set_ne (fun h => hj h.symm)
  · intro D hD
    show p.runtime ≠ p.runtime + D
    omega
  · intro D hD
    show p.vruntime ≠ p.vruntime + D * 1024 / weight_at p.nice
    omega

/-- Witness of C14 (amended) on `sampleIdle`, whose slot 1 is RUNNING. -/
theorem yield_no_accounting_witness :
    sampleIdle[1]? = some (mkSlot 2 procstate.RUNNING 20 900) ∧
    ∃ (t' : List proc) (p' : proc), yield sampleIdle 1 = some t' ∧ t'[1]? = some p' ∧
      p' = { mkSlot 2 procstate.RUNNING 20 900 with state := procstate.RUNNABLE } ∧
      p'.runtime = (mkSlot 2 procstate.RUNNING 20 900).runtime ∧
      p'.vruntime = (mkSlot 2 procstate.RUNNING 20 900).vruntime ∧
      t'.length = sampleIdle.length ∧ (∀ j : Nat, j ≠ 1 → t'[j]? = sampleIdle[j]?) ∧
      (∀ D : Nat, 1 ≤ D → p'.runtime ≠ (mkSlot 2 procstate.RUNNING 20 900).runtime + D) ∧
      (∀ D : Nat, 1 ≤ D * 1024 / weight_at (mkSlot 2 procstate.RUNNING 20 900).nice →
        p'.vruntime ≠ (mkSlot 2 procstate.RUNNING 20 900).vruntime +
          D * 1024 / weight_at (mkSlot 2 procstate.RUNNING 20 900).nice) :=
  ⟨by decide, yield_no_accounting sampleIdle 1 (mkSlot 2 procstate.RUNNING 20 900) (by decide)⟩

/-- C15: `kill(pid)` returns 0 when some slot has the pid and -1 otherwise; it
keeps the number of slots; the first slot with the pid gets the killed flag and
becomes RUNNABLE exactly when it was SLEEPING (its state is kept otherwise);
no slot changes its vruntime, runtime, nice or timeslice, and every slot other
than that first match is unchanged (when it returns -1 the table is
unchanged). -/
theorem kill_frame (t : List proc) (pid : Int) :
    ((kill t pid).1 = 0 ↔ ∃ q ∈ t, q.pid = pid) ∧
    ((kill t pid).1 = -1 ↔ ∀ q ∈ t, q.pid ≠ pid) ∧
    ((kill t pid).1 = -1 → (kill t pid).2 = t) ∧
    (kill t pid).2.length = t.length ∧
    ∀ (i : Nat) (p : proc), t[i]? = some p →
      ∃ p' : proc, (kill t pid).2[i]? = some p' ∧
        p'.vruntime = p.vruntime ∧ p'.runtime = p.runtime ∧ p'.nice = p.nice ∧
        p'.timeslice = p.timeslice ∧
        ((p.pid = pid ∧ ∀ (j : Nat) (q : proc), t[j]? = some q → j < i → q.pid ≠ pid) →
          p' = { p with killed := 1,
                        state := if p.state = procstate.SLEEPING then procstate.RUNNABLE
                                 else p.state }) ∧
        (¬ (p.pid = pid ∧ ∀ (j : Nat) (q : proc), t[j]? = some q → j < i → q.pid ≠ pid) →
          p' = p) := by
  rcases kill_cases pid t with ⟨hall, he⟩ | ⟨i0, p0, hp0, hpid0, hfirst0, he⟩
  · rw [he]
    refine ⟨⟨fun h => (by cases h), fun ⟨q, hq, hqp⟩ => absurd hqp (hall q hq)⟩,
      ⟨fun _ => hall, fun _ => rfl⟩, fun _ => rfl, rfl, ?_⟩
    intro i p hp
    refine ⟨p, hp, rfl, rfl, rfl, rfl, ?_, fun _ => rfl⟩
    rintro ⟨hpid, -⟩
    exact absurd hpid (hall p (List.getElem?_mem hp))
  · rw [he]
    have hlt0 := getElem?_lt_length t i0 p0 hp0
    refine ⟨⟨fun _ => ⟨p0, List.getElem?_mem hp0, hpid0⟩, fun _ => rfl⟩,
      ⟨fun h => (by cases h), fun h => absurd hpid0 (h p0 (List.getElem?_mem hp0))⟩,
      fun h => (by cases h), by simp, ?_⟩
    intro i p hp
    by_cases hi : i = i0
    · subst hi
      rw [hp0] at hp
      cases hp
      refine ⟨killSlot p0, by simp [hlt0], rfl, rfl, rfl, rfl, fun _ => rfl, ?_⟩
      intro hn
      exact absurd ⟨hpid0, hfirst0⟩ hn
    · refine ⟨p, ?_, rfl, rfl, rfl, rfl, ?_, fun _ => rfl⟩
      · simp only
        rw [List.getElem?_set_ne (fun h => hi h.symm)]
        exact hp
      · rintro ⟨hpid, hfirst⟩
        rcases Nat.lt_or_ge i i0 with h | h
        · exact absurd hpid (hfirst0 i p hp h)
        · exact absurd hpid0 (hfirst i0 p0 hp0 (by omega))

/-- C16: the array `weight` has exactly 40 entries, every entry is positive,
the entries are strictly decreasing in the index, `weight[20] = 1024`,
`weight[0] = 88761`, `weight[39] = 15`, and `weight[nice]` is not zero for every
nice in `0..39`. -/
theorem weight_table_properties :
    weight.length = 40 ∧ (∀ w ∈ weight, 0 < w) ∧
    (∀ i j : Int, 0 ≤ i → i < j → j ≤ 39 → weight_at j < weight_at i) ∧
    weight_at 20 = 1024 ∧ weight_at 0 = 88761 ∧ weight_at 39 = 15 ∧
    (∀ nice : Int, 0 ≤ nice → nice ≤ 39 →
      weight_at nice = weight.getD nice.toNat 0 ∧ weight_at nice ≠ 0) := by
  refine ⟨by decide, by decide, ?_, by decide, by decide, by decide, ?_⟩
  · have hstep : ∀ n : Int, 0 ≤ n → n ≤ 38 → weight_at (n + 1) < weight_at n := by
      intro n h0 h1
      interval_cases n <;> decide
    have hchain : ∀ (d : Nat) (i : Int), 0 ≤ i → i + (d + 1 : Nat) ≤ 39 →
        weight_at (i + (d + 1 : Nat)) < weight_at i := by
      intro d
      induction d with
      | zero =>
        intro i h0 h1
        have := hstep i h0 (by omega)
        simpa using this
      | succ d ih =>
        intro i h0 h1
        have h2 := ih i h0 (by omega)
        have h3 := hstep (i + (d + 1 : Nat)) (by omega) (by omega)
        have he : i + ((d + 1 + 1 : Nat) : Int) = i + ((d + 1 : Nat) : Int) + 1 := by
          push_cast; ring
        rw [he]
        omega
    intro i j h0 hij hj
    have hd : j = i + (((j - i).toNat - 1 + 1 : Nat) : Int) := by omega
    rw [hd]
    exact hchain _ i h0 (by omega)
  · intro nice h0 h1
    refine ⟨?_, ?_⟩
    · unfold weight_at
      rw [if_pos ⟨h0, by omega⟩]
    · have := (weight_at_bounds nice h0 h1).1
      omega

/-- C17 (failing input): on `sampleMaxTwo` two processes are RUNNABLE, both with
`vruntime = UINT32_MAX`; the scan sets `runnable_exists` to 1 but never
satisfies `p->vruntime < min_vruntime`, so `min_vrun_p` stays null and the
dispatch step dereferences it: no slot becomes RUNNING. -/
theorem dispatch_frame_failing_input :
    sampleMaxTwo.length = NPROC ∧ niceInRange sampleMaxTwo ∧ tableWellTyped sampleMaxTwo ∧
    (∃ q ∈ sampleMaxTwo, q.runnable) ∧
    (scan sampleMaxTwo).runnable_exists = 1 ∧ (scan sampleMaxTwo).min_vrun_p = none ∧
    schedulerStep sampleMaxTwo = none := by
  decide

/-- C18 (failing input): on `sampleMaxOne` exactly one process is RUNNABLE, of
nice 20 and with `vruntime = UINT32_MAX`; the scan selects no process
(`min_vrun_p` stays null) and the dispatch step dereferences the null pointer
instead of storing the timeslice 10000. -/
theorem single_runnable_failing_input :
    sampleMaxOne.length = NPROC ∧ niceInRange sampleMaxOne ∧ tableWellTyped sampleMaxOne ∧
    sampleMaxOne[1]? = some (mkSlot 2 procstate.RUNNABLE 20 4294967295) ∧
    (∀ (j : Nat) (q : proc), sampleMaxOne[j]? = some q → q.runnable → j = 1) ∧
    (scan sampleMaxOne).runnable_exists = 1 ∧ (scan sampleMaxOne).min_vrun_p = none ∧
    schedulerStep sampleMaxOne = none := by
  refine ⟨by decide, by decide, by decide, by decide, ?_, by decide, by decide, by decide⟩
  intro j q hq hr
  have hall : ∀ j : Fin 64, ∀ q : proc, sampleMaxOne[j.val]? = some q → q.runnable →
      j.val = 1 := by
    decide
  have hj : j < 64 := getElem?_lt_length sampleMaxOne j q hq
  exact hall ⟨j, hj⟩ q hq hr

set_option maxRecDepth 8000 in
/-- Counterexample to C19: with `total_ticks = 0` the header ends with
`tick 0000` and a newline, while the decimal representation of `0 * 1000` is
`0`; with `total_ticks = 2147483648` the conversion `%d` prints a negative
number. -/
theorem ps_header_counterexample :
    psHeader 0 = psTitles ++ String.toList "0000\n" ∧
    decimal (0 * 1000) = String.toList "0" ∧
    ¬ List.IsSuffix (String.toList "tick " ++ decimal (0 * 1000) ++ [Char.ofNat 10])
        (psHeader 0) ∧
    psHeader 2147483648 = psTitles ++ String.toList "-2147483648000\n" ∧
    ¬ List.IsSuffix
        (String.toList "tick " ++ decimal (2147483648 * 1000) ++ [Char.ofNat 10])
        (psHeader 2147483648) := by
  decide

/-- C19 (amended): for `0 < total_ticks < 2^31` the header printed by `ps` ends
with the text `tick `, the decimal representation of `total_ticks * 1000` and a
newline; `ps` with a pid that is not positive prints this header first, and
`ps` with a positive pid prints it in front of the row of each slot with that
pid. -/
theorem ps_header_tick (t : List proc) (total_ticks : Nat)
    (h0 : 0 < total_ticks) (h1 : total_ticks < 2 ^ 31) :
    List.IsSuffix (String.toList "tick " ++ decimal (total_ticks * 1000) ++ [Char.ofNat 10])
      (psHeader total_ticks) ∧
    (ps t total_ticks 0).1 = psHeader total_ticks ++ psAll t ∧
    ∀ (pid : Int) (l1 l2 : List proc) (p : proc), 0 < pid → p.pid = pid →
      (ps (l1 ++ p :: l2) total_ticks pid).1 =
        psMatching total_ticks pid l1 ++ (psHeader total_ticks ++ psRow p) ++
          psMatching total_ticks pid l2 := by
  refine ⟨⟨psTitles.take 98, ?_⟩, ?_, ?_⟩
  · have hsplit : psTitles = psTitles.take 98 ++ String.toList "tick " := by decide
    have hnl : String.toList "000\n" = String.toList "000" ++ [Char.ofNat 10] := by decide
    unfold psHeader
    rw [toInt32_of_lt total_ticks h1, fmt_d_of_nonneg _ (by omega),
      decimal_mul_thousand total_ticks h0, hnl]
    simp only [Int.toNat_ofNat]
    conv => rhs; rw [hsplit]
    simp only [List.append_assoc]
  · unfold ps
    rw [if_neg (by decide)]
  · intro pid l1 l2 p hpid hp
    unfold ps
    rw [if_pos hpid]
    simp only
    rw [psMatching_append]
    simp only [psMatching, hp, if_true, List.append_assoc]

/-- Witness of C19 (amended) with `total_ticks = 7`: the header ends with
`tick 7000` and a newline. -/
theorem ps_header_tick_witness :
    (0 < 7 ∧ 7 < 2 ^ 31) ∧
    decimal (7 * 1000) = String.toList "7000" ∧
    List.IsSuffix (String.toList "tick " ++ decimal (7 * 1000) ++ [Char.ofNat 10])
      (psHeader 7) :=
  ⟨⟨by decide, by decide⟩, by decide,
   (ps_header_tick sampleForkKernel.ptable 7 (by decide) (by decide)).1⟩

/-- C20: for a slot whose name has at most 16 characters, whose pid is a
positive `int`, whose nice is in `0..39` and whose `uint` fields hold 32-bit
values, the row printed by `ps` is the name, the pid, the state, the nice value,
`runtime / weight[nice]` and the runtime, each followed by spaces up to exactly
16, 11, 14, 13, 17 and 13 characters, then the vruntime in decimal and a
newline; the vruntime starts at offset 84 of the row. -/
theorem ps_row_layout (p : proc) (hname : p.name.length ≤ 16)
    (hpid : 0 < p.pid) (hpid32 : p.pid < 2 ^ 31)
    (hn0 : 0 ≤ p.nice) (hn1 : p.nice ≤ 39) (hwt : p.wellTyped) :
    psRow p =
      padRight 16 p.name ++ padRight 11 (decimal p.pid.toNat) ++
      padRight 14 (procstate_str p.state) ++ padRight 13 (decimal p.nice.toNat) ++
      padRight 17 (decimal (p.runtime / weight_at p.nice)) ++
      padRight 13 (decimal p.runtime) ++ (decimal p.vruntime ++ [Char.ofNat 10]) ∧
    (padRight 16 p.name).length = 16 ∧
    (padRight 11 (decimal p.pid.toNat)).length = 11 ∧
    (padRight 14 (procstate_str p.state)).length = 14 ∧
    (padRight 13 (decimal p.nice.toNat)).length = 13 ∧
    (padRight 17 (decimal (p.runtime / weight_at p.nice))).length = 17 ∧
    (padRight 13 (decimal p.runtime)).length = 13 ∧
    (psRow p).drop 84 = decimal p.vruntime ++ [Char.ofNat 10] := by
  obtain ⟨hrt, -, -⟩ := hwt
  have hq : p.runtime / weight_at p.nice < 2 ^ 32 :=
    Nat.lt_of_le_of_lt (Nat.div_le_self _ _) hrt
  have hpidlen : (decimal p.pid.toNat).length ≤ 10 :=
    decimal_length_le_ten p.pid.toNat (by omega)
  have hnicelen := decimal_nice_length p.nice hn0 hn1
  have hqlen := decimal_length_le_ten _ hq
  have hrtlen := decimal_length_le_ten _ hrt
  have hstlen := procstate_str_length p.state
  have f1 : p.name ++ spaces (16 - strlen p.name) = padRight 16 p.name :=
    spaces_eq 16 p.name _ rfl
  have f2 : fmt_d p.pid ++ spaces (11 - pid_length p.pid) = padRight 11 (decimal p.pid.toNat) := by
    rw [fmt_d_of_nonneg p.pid (by omega)]
    exact spaces_eq 11 _ _ (pid_length_eq p.pid (by omega))
  have f3 : procstate_str p.state ++ spaces (14 - strlen (procstate_str p.state)) =
      padRight 14 (procstate_str p.state) :=
    spaces_eq 14 _ _ rfl
  have f4 : fmt_d p.nice ++ spaces (if p.nice > 9 then 11 else 12) =
      padRight 13 (decimal p.nice.toNat) := by
    rw [fmt_d_of_nonneg p.nice hn0]
    have hb : (if p.nice > 9 then (11 : Int) else 12) =
        (13 : Nat) - (((decimal p.nice.toNat).length : Nat) : Int) := by
      rw [hnicelen]
      split <;> simp
    rw [hb]
    exact spaces_eq 13 _ _ rfl
  have f5 : fmt_u (p.runtime / weight_at p.nice) ++
      spaces (17 - digit_len (p.runtime / weight_at p.nice)) =
      padRight 17 (decimal (p.runtime / weight_at p.nice)) :=
    spaces_eq 17 _ _ (digit_len_eq _)
  have f6 : fmt_u p.runtime ++ spaces (13 - digit_len p.runtime) =
      padRight 13 (decimal p.runtime) :=
    spaces_eq 13 _ _ (digit_len_eq _)
  have hrow : psRow p =
      padRight 16 p.name ++ padRight 11 (decimal p.pid.toNat) ++
      padRight 14 (procstate_str p.state) ++ padRight 13 (decimal p.nice.toNat) ++
      padRight 17 (decimal (p.runtime / weight_at p.nice)) ++
      padRight 13 (decimal p.runtime) ++ (decimal p.vruntime ++ [Char.ofNat 10]) := by
    unfold psRow
    rw [f1, f2, f3, f4, f5, f6]
    rfl
  have l1 := padRight_length 16 p.name hname
  have l2 := padRight_length 11 (decimal p.pid.toNat) (by omega)
  have l3 := padRight_length 14 (procstate_str p.state) hstlen
  have l4 := padRight_length 13 (decimal p.nice.toNat) (by rw [hnicelen]; split <;> omega)
  have l5 := padRight_length 17 (decimal (p.runtime / weight_at p.nice)) (by omega)
  have l6 := padRight_length 13 (decimal p.runtime) (by omega)
  refine ⟨hrow, l1, l2, l3, l4, l5, l6, ?_⟩
  rw [hrow]
  apply List.drop_left'
  simp only [List.length_append, l1, l2, l3, l4, l5, l6]

/-- Witness of C20 on `sampleRowProc`. -/
theorem ps_row_layout_witness :
    (sampleRowProc.name.length ≤ 16 ∧ 0 < sampleRowProc.pid ∧ sampleRowProc.pid < 2 ^ 31 ∧
      0 ≤ sampleRowProc.nice ∧ sampleRowProc.nice ≤ 39 ∧ sampleRowProc.wellTyped) ∧
    psRow sampleRowProc =
      String.toList
        "sh              12         RUNNABLE      7            17               321000       4500\n" ∧
    (psRow sampleRowProc).drop 84 = decimal sampleRowProc.vruntime ++ [Char.ofNat 10] :=
  ⟨⟨by decide, by decide, by decide, by decide, by decide, by decide⟩, by decide,
   (ps_row_layout sampleRowProc (by decide) (by decide) (by decide) (by decide) (by decide)
     (by decide)).2.2.2.2.2.2.2⟩

/-- C21: `ps(pid)` with `pid > 0` that matches no slot prints nothing; `ps(pid)`
with `pid > 0` prints, in table order, the header and the row of each slot whose
pid is `pid` and nothing for the other slots; `ps(0)` prints the header once and
then the row of each slot whose state is not UNUSED, in table order; `ps`
leaves the table unchanged.  A row is the name of the slot, the other fields
without a newline, the vruntime in decimal and a newline; so, when no name
holds a newline, the output of `ps(0)` has one line for the header and one line
for each slot that is not UNUSED, and the output of `ps(pid)` with `pid > 0`
has two lines for each slot whose pid is `pid`. -/
theorem ps_output (t : List proc) (total_ticks : Nat) :
    (∀ pid : Int, 0 < pid → (∀ q ∈ t, q.pid ≠ pid) → (ps t total_ticks pid).1 = []) ∧
    (∀ pid : Int, 0 < pid →
      (ps t total_ticks pid).1 =
        ((t.filter (fun p => p.pid = pid)).map
          (fun p => psHeader total_ticks ++ psRow p)).flatten) ∧
    (ps t total_ticks 0).1 =
      psHeader total_ticks ++
        ((t.filter (fun p => p.state ≠ procstate.UNUSED)).map psRow).flatten ∧
    (∀ pid : Int, (ps t total_ticks pid).2 = t) ∧
    (∀ p : proc, ∃ mid : List Char,
      psRow p = p.name ++ mid ++ (decimal p.vruntime ++ [Char.ofNat 10]) ∧
      Char.ofNat 10 ∉ mid) ∧
    ((∀ q ∈ t, Char.ofNat 10 ∉ q.name) →
      List.count (Char.ofNat 10) (ps t total_ticks 0).1 =
        1 + (t.filter (fun p => p.state ≠ procstate.UNUSED)).length) ∧
    ((∀ q ∈ t, Char.ofNat 10 ∉ q.name) → ∀ pid : Int, 0 < pid →
      List.count (Char.ofNat 10) (ps t total_ticks pid).1 =
        2 * (t.filter (fun p => p.pid = pid)).length) := by
  refine ⟨?_, ?_, ?_, ?_, psRow_shape, ?_, ?_⟩
  · intro pid hpid habs
    unfold ps
    rw [if_pos hpid]
    exact psMatching_of_absent total_ticks pid t habs
  · intro pid hpid
    unfold ps
    rw [if_pos hpid]
    exact psMatching_eq_flatten total_ticks pid t
  · unfold ps
    rw [if_neg (by decide)]
    simp only
    rw [psAll_eq_flatten]
  · intro pid
    unfold ps
    split <;> rfl
  · intro hnames
    unfold ps
    rw [if_neg (by decide)]
    simp only
    rw [List.count_append, count_newline_psHeader, count_newline_psAll t hnames]
  · intro hnames pid hpid
    unfold ps
    rw [if_pos hpid]
    exact count_newline_psMatching total_ticks pid t hnames

set_option maxRecDepth 20000 in
/-- Witness of C21 on the table of `sampleForkKernel` with `total_ticks = 7`:
`ps(0)` prints the header and the rows of the two slots that are not UNUSED,
`ps(2)` prints the header and the row of the process with pid 2, and `ps(9)`,
which matches no slot, prints nothing. -/
theorem ps_output_witness :
    (ps sampleForkKernel.ptable 7 0).1 =
      String.toList
        "name            pid        state         priority     runtime/weight   runtime      vruntime      tick 7000\n                1          SLEEPING      20           0                0            10\nsh              2          RUNNING       7            0                321          4500\n" ∧
    (ps sampleForkKernel.ptable 7 2).1 =
      String.toList
        "name            pid        state         priority     runtime/weight   runtime      vruntime      tick 7000\nsh              2          RUNNING       7            0                321          4500\n" ∧
    (ps sampleForkKernel.ptable 7 9).1 = [] ∧
    List.count (Char.ofNat 10) (ps sampleForkKernel.ptable 7 0).1 = 3 :=
  ⟨by decide, by decide,
   (ps_output sampleForkKernel.ptable 7).1 9 (by decide) (by decide),
   (ps_output sampleForkKernel.ptable 7).2.2.2.2.2.1 (by decide)⟩

/-- C23 (failing input): from `sampleNearZero`, `wakeup(7)` wakes the sleeper at
`999 - 1000` modulo `2^32 = UINT32_MAX`, the dispatch step runs the other
process, which then sleeps; in the table reached, `sampleStranded`, a process is
RUNNABLE, the scan sets `runnable_exists` to 1 and leaves `min_vrun_p` null, and
the dispatch step dereferences the null pointer. -/
theorem null_min_vrun_p_failing_input :
    (schedulerStep (wakeup sampleNearZero 7)).bind (fun t => sleep t 0 9 1) =
      some sampleStranded ∧
    sampleStranded.length = NPROC ∧ niceInRange sampleStranded ∧
    tableWellTyped sampleStranded ∧ (∃ q ∈ sampleStranded, q.runnable) ∧
    (scan sampleStranded).runnable_exists = 1 ∧ (scan sampleStranded).min_vrun_p = none ∧
    schedulerStep sampleStranded = none := by
  decide

/-- C24: on a table of `NPROC` slots with nice values in `0..39` in which the
scan selects the slot `p` at index `i`, the weight of `p` is one of the summands
of the total weight, the dispatch step succeeds and the timeslice it stores is
at most 10000. -/
theorem timeslice_le_ten_thousand (t : List proc) (i : Nat) (p : proc)
    (hlen : t.length = NPROC) (hnice : niceInRange t)
    (hsel : (scan t).min_vrun_p = some i) (hp : t[i]? = some p) :
    weight_at p.nice ≤ totalWeight t ∧ (scan t).total_weight = totalWeight t ∧
    ∃ (t' : List proc) (p' : proc), schedulerStep t = some t' ∧ t'[i]? = some p' ∧
      p'.timeslice ≤ 10000 := by
  obtain ⟨hmem, hrun, hilt, -, hWpos, -, hstep⟩ :=
    schedulerStep_of_selected t i p hlen hnice hsel hp
  have hle := totalWeight_ge_of_mem t p hmem hrun
  refine ⟨hle, scan_total_weight t hlen, _,
    { p with timeslice := 10000 * weight_at p.nice / totalWeight t,
             state := procstate.RUNNING }, hstep, by simp [hilt], ?_⟩
  show 10000 * weight_at p.nice / totalWeight t ≤ 10000
  apply Nat.div_le_of_le_mul
  rw [Nat.mul_comm (totalWeight t) 10000]
  exact Nat.mul_le_mul_left 10000 hle

/-- Witness of C24 on `sampleTies`, where the scan selects index 1. -/
theorem timeslice_le_ten_thousand_witness :
    (sampleTies.length = NPROC ∧ niceInRange sampleTies ∧
      (scan sampleTies).min_vrun_p = some 1 ∧
      sampleTies[1]? = some (mkSlot 2 procstate.RUNNABLE 10 300)) ∧
    (weight_at (mkSlot 2 procstate.RUNNABLE 10 300).nice ≤ totalWeight sampleTies ∧
    (scan sampleTies).total_weight = totalWeight sampleTies ∧
    ∃ (t' : List proc) (p' : proc), schedulerStep sampleTies = some t' ∧
      t'[1]? = some p' ∧ p'.timeslice ≤ 10000) :=
  ⟨⟨by decide, by decide, by decide, by decide⟩,
   timeslice_le_ten_thousand sampleTies 1 (mkSlot 2 procstate.RUNNABLE 10 300)
     (by decide) (by decide) (by decide) (by decide)⟩

end Xv6
